import Mathlib

/-!
Shallow embedding of the django-conditions engine (src/models.py, src/managers.py,
src/management/commands/processconditions.py).

Timestamps are natural numbers (the code uses `datetime`; only ordering and addition of a
`relativedelta` to a timestamp matter, so `Nat` with `+` and `≤` models them).  A scheduler
pass receives one `now` value, modelling the `datetime.now()` calls made during that pass.

The database is a pair of tables: `Condition` rows and `Action` rows, plus the next fresh
primary key for conditions.  Django querysets are modelled as list filters; `get_or_create`
over the open-conditions queryset is modelled by `List.find?` followed by an insert
(under the at-most-one-open invariant the first match is the unique match, exactly the row
Django's `.get` would return).

A caller-supplied action body is opaque: invoking it is modelled as emitting an
`Event.invoke` into the pass's event list, and creating its `Action` row as emitting
`Event.record` (next to the actual row insert), so that the order of recording versus
invocation is observable.
-/

/-- The four `Action.action_type` values `I`/`D`/`R`/`E` from `models.py`. -/
inductive ActionType where
  | initial
  | delayed
  | recurring
  | ending
deriving DecidableEq, Repr

/-- One row of the concrete `Condition` model: primary key, the content type of the
condition proxy class, `object_id` of the subject, `created`, and nullable `ended`. -/
structure Condition where
  id : Nat
  contentType : Nat
  objectId : Nat
  created : Nat
  ended : Option Nat
deriving DecidableEq, Repr

/-- One row of the `Action` model: foreign key to a condition, the action type,
the name of the executed method, and the `executed` timestamp. -/
structure ActionRec where
  conditionId : Nat
  actionType : ActionType
  name : String
  executed : Nat
deriving DecidableEq, Repr

/-- The persistent state: both tables plus the next fresh condition primary key. -/
structure DBState where
  conditions : List Condition
  actions : List ActionRec
  nextId : Nat
deriving DecidableEq, Repr

/-- One action method declared on a `ConditionClass` subclass: its method name, its
`_action_type` tag injected by the decorator, and the `_action_delay` /
`_action_interval` duration for delayed / recurring actions (unused for the others). -/
structure ActionDecl where
  name : String
  actionType : ActionType
  delta : Nat
deriving DecidableEq, Repr

/-- A `ConditionClass` subclass: its proxy content type, its action methods in the
order they are declared in the class body, its `exists_when` predicate over subject
primary keys (`none` models a subclass that failed to set the attribute), and the
parent model's table of subject primary keys. -/
structure CondClass where
  ct : Nat
  declarations : List ActionDecl
  existsWhen : Option (Nat → Bool)
  population : List Nat

/-- Observable happenings of a pass: an `Action` row being inserted, and an action
method body being invoked, both labelled with the condition id, type and method name. -/
inductive Event where
  | record (conditionId : Nat) (actionType : ActionType) (name : String)
  | invoke (conditionId : Nat) (actionType : ActionType) (name : String)
deriving DecidableEq, Repr

/-- `ConditionManager.open_conditions`: the conditions whose `ended` is null. -/
def open_conditions (db : DBState) : List Condition :=
  db.conditions.filter (fun c => c.ended.isNone)

/-- The `.get` half of `get_or_create` on the open-conditions queryset: the open
condition row matching the given content type and object id, if any. -/
def findOpenCondition (db : DBState) (ct pk : Nat) : Option Condition :=
  (open_conditions db).find? (fun c => c.contentType == ct && c.objectId == pk)

/-- `ConditionClass.get_or_create_condition`: fetch the open condition for
`(content_type, object_id)`, creating (and persisting) a fresh one with
`created = now` and `ended = null` when none exists. -/
def get_or_create_condition (ct pk now : Nat) (db : DBState) : Condition × DBState :=
  match findOpenCondition db ct pk with
  | some c => (c, db)
  | none =>
      let c : Condition := ⟨db.nextId, ct, pk, now, none⟩
      (c, ⟨db.conditions ++ [c], db.actions, db.nextId + 1⟩)

/-- `Action.objects.create`: unconditionally insert one `Action` row with
`executed = now` (the field default).  The model declares no uniqueness constraint,
so the insert always succeeds. -/
def createAction (db : DBState) (cid : Nat) (t : ActionType) (name : String)
    (now : Nat) : DBState :=
  { db with actions := db.actions ++ [⟨cid, t, name, now⟩] }

/-- Lexicographic comparison of code-point lists, as Python compares strings. -/
def lexLe : List Char → List Char → Bool
  | [], _ => true
  | _ :: _, [] => false
  | a :: as, b :: bs => a.toNat < b.toNat || (a.toNat == b.toNat && lexLe as bs)

/-- Python string `<=` on method names (code-point lexicographic order). -/
def strLe (a b : String) : Bool := lexLe a.data b.data

/-- Insert a declaration into a name-sorted list, keeping it sorted by `strLe`. -/
def insertByName (a : ActionDecl) : List ActionDecl → List ActionDecl
  | [] => [a]
  | b :: bs => if strLe a.name b.name then a :: b :: bs else b :: insertByName a bs

/-- Sort declarations by method name, as `inspect.getmembers` returns a class's
members as `(name, value)` pairs sorted by name. -/
def sortByName : List ActionDecl → List ActionDecl
  | [] => []
  | a :: rest => insertByName a (sortByName rest)

/-- `ConditionClass._get_action_methods`: all methods carrying the given
`_action_type` tag, in the order `inspect.getmembers` yields them — sorted
alphabetically by method name, not in declaration order. -/
def get_action_methods (cls : CondClass) (t : ActionType) : List ActionDecl :=
  (sortByName cls.declarations).filter (fun a => a.actionType == t)

/-- The shared loop body of the four `execute_*_actions` methods: for each action in
the list, re-read `self.condition` (the `get_or_create_condition` property), insert the
`Action` row, then invoke the method body.  Returns the new state and the emitted
record/invoke events in order. -/
def runActions (t : ActionType) (ct pk now : Nat) :
    List ActionDecl → DBState → DBState × List Event
  | [], db => (db, [])
  | a :: rest, db =>
      let cdb := get_or_create_condition ct pk now db
      let db2 := createAction cdb.2 cdb.1.id t a.name now
      let res := runActions t ct pk now rest db2
      (res.1, Event.record cdb.1.id t a.name :: Event.invoke cdb.1.id t a.name :: res.2)

/-- `ConditionClass.execute_initial_actions`: unconditionally record and invoke every
method tagged `initial`. -/
def execute_initial_actions (cls : CondClass) (pk now : Nat) (db : DBState) :
    DBState × List Event :=
  runActions ActionType.initial cls.ct pk now (get_action_methods cls ActionType.initial) db

/-- `ConditionClass.create_condition`: touch `self.condition` (creating it when
absent), then execute the initial actions when `execute` is set. -/
def create_condition (cls : CondClass) (pk : Nat) (execute : Bool) (now : Nat)
    (db : DBState) : DBState × List Event :=
  let cdb := get_or_create_condition cls.ct pk now db
  if execute then execute_initial_actions cls pk now cdb.2 else (cdb.2, [])

/-- The rows of the `Action.objects.filter(condition=..., name=..., action_type=...)`
queryset used by the delayed and recurring triggers. -/
def recordsFor (db : DBState) (cid : Nat) (t : ActionType) (name : String) :
    List ActionRec :=
  db.actions.filter (fun r => r.conditionId == cid && r.actionType == t && r.name == name)

/-- `qry.count()` on `recordsFor`. -/
def countRecords (db : DBState) (cid : Nat) (t : ActionType) (name : String) : Nat :=
  (recordsFor db cid t name).length

/-- `qry.latest().executed` with `get_latest_by = 'executed'`: the greatest
`executed` timestamp among the rows. -/
def latest_executed (l : List ActionRec) : Nat :=
  l.foldl (fun m r => max m r.executed) 0

/-- `ConditionClass.get_triggered_delayed_actions`: read `self.condition` once, then
keep each `delayed`-tagged method with no existing `DELAYED` row for
`(condition, name)` whose delay has elapsed since `condition.created`. -/
def get_triggered_delayed_actions (cls : CondClass) (pk now : Nat) (db : DBState) :
    List ActionDecl × DBState :=
  let cdb := get_or_create_condition cls.ct pk now db
  ((get_action_methods cls ActionType.delayed).filter (fun a =>
      countRecords cdb.2 cdb.1.id ActionType.delayed a.name == 0 &&
      decide (cdb.1.created + a.delta ≤ now)),
   cdb.2)

/-- `ConditionClass.execute_delayed_actions`: record and invoke each triggered
delayed action. -/
def execute_delayed_actions (cls : CondClass) (pk now : Nat) (db : DBState) :
    DBState × List Event :=
  let tdb := get_triggered_delayed_actions cls pk now db
  runActions ActionType.delayed cls.ct pk now tdb.1 tdb.2

/-- `ConditionClass.get_triggered_recurring_actions`: for each `recurring`-tagged
method, the baseline is the latest `RECURRING` row's `executed` when one exists,
else `condition.created`; the action is due when the interval has elapsed since
the baseline. -/
def get_triggered_recurring_actions (cls : CondClass) (pk now : Nat) (db : DBState) :
    List ActionDecl × DBState :=
  let cdb := get_or_create_condition cls.ct pk now db
  ((get_action_methods cls ActionType.recurring).filter (fun a =>
      let qry := recordsFor cdb.2 cdb.1.id ActionType.recurring a.name
      let last := if qry.isEmpty then cdb.1.created else latest_executed qry
      decide (last + a.delta ≤ now)),
   cdb.2)

/-- `ConditionClass.execute_recurring_actions`: record and invoke each triggered
recurring action. -/
def execute_recurring_actions (cls : CondClass) (pk now : Nat) (db : DBState) :
    DBState × List Event :=
  let tdb := get_triggered_recurring_actions cls pk now db
  runActions ActionType.recurring cls.ct pk now tdb.1 tdb.2

/-- `ConditionClass.execute_ending_actions`: unconditionally record and invoke every
method tagged `ending`. -/
def execute_ending_actions (cls : CondClass) (pk now : Nat) (db : DBState) :
    DBState × List Event :=
  runActions ActionType.ending cls.ct pk now (get_action_methods cls ActionType.ending) db

/-- `condition.save()` after setting `ended`: update every row with the given primary
key, setting its `ended` field. -/
def closeCondition (db : DBState) (cid endedAt : Nat) : DBState :=
  { db with
    conditions := db.conditions.map (fun x =>
      if x.id == cid then { x with ended := some endedAt } else x) }

/-- `ConditionClass.end_condition`: execute ending actions first when `execute` is
set, then fetch `self.condition` and persist `ended = ended_date or now()`. -/
def end_condition (cls : CondClass) (pk : Nat) (execute : Bool)
    (endedDate : Option Nat) (now : Nat) (db : DBState) : DBState × List Event :=
  let step1 := if execute then execute_ending_actions cls pk now db else (db, [])
  let cdb := get_or_create_condition cls.ct pk now step1.1
  (closeCondition cdb.2 cdb.1.id (endedDate.getD now), step1.2)

/-- `ConditionClassManager.get_query_set`: the parent table filtered by
`exists_when`; raises `NoExistsWhen` when the attribute is missing. -/
def get_query_set (cls : CondClass) : Except Unit (List Nat) :=
  match cls.existsWhen with
  | some p => Except.ok (cls.population.filter p)
  | none => Except.error ()

/-- `ConditionClassManager._get_ids_with_conditions`: `object_id`s of open
conditions whose content type is this class's. -/
def get_ids_with_conditions (cls : CondClass) (db : DBState) : List Nat :=
  ((open_conditions db).filter (fun c => c.contentType == cls.ct)).map (fun c => c.objectId)

/-- `ConditionClassManager.to_be_created`: subjects satisfying `exists_when` with no
open condition yet. -/
def to_be_created (cls : CondClass) (db : DBState) : Except Unit (List Nat) :=
  match get_query_set cls with
  | Except.ok l =>
      Except.ok (l.filter (fun pk => !(get_ids_with_conditions cls db).contains pk))
  | Except.error e => Except.error e

/-- `ConditionClassManager.to_be_ended`: subjects not satisfying `exists_when` that
still have an open condition. -/
def to_be_ended (cls : CondClass) (db : DBState) : Except Unit (List Nat) :=
  match cls.existsWhen with
  | some p =>
      Except.ok ((cls.population.filter (fun pk => !(p pk))).filter
        (fun pk => (get_ids_with_conditions cls db).contains pk))
  | none => Except.error ()

/-- The `for model in qs: ...` loops of the classmethods: the queryset is evaluated
once up front, then the per-subject operation runs on each primary key in order,
threading the state and concatenating the emitted events. -/
def foldRun (f : Nat → DBState → DBState × List Event) :
    List Nat → DBState → DBState × List Event
  | [], db => (db, [])
  | pk :: rest, db =>
      let step := f pk db
      let res := foldRun f rest step.1
      (res.1, step.2 ++ res.2)

/-- `ConditionClass.create_all_conditions`: `create_condition` for every subject in
`to_be_created`. -/
def create_all_conditions (cls : CondClass) (execute : Bool) (now : Nat)
    (db : DBState) : Except Unit (DBState × List Event) :=
  match to_be_created cls db with
  | Except.ok pks => Except.ok (foldRun (fun pk => create_condition cls pk execute now) pks db)
  | Except.error e => Except.error e

/-- `ConditionClass.end_all_conditions`: `end_condition` for every subject in
`to_be_ended`. -/
def end_all_conditions (cls : CondClass) (execute : Bool) (now : Nat)
    (db : DBState) : Except Unit (DBState × List Event) :=
  match to_be_ended cls db with
  | Except.ok pks =>
      Except.ok (foldRun (fun pk => end_condition cls pk execute none now) pks db)
  | Except.error e => Except.error e

/-- `ConditionClass.execute_all_delayed`: `execute_delayed_actions` for every subject
in `cls.objects.all()` (the `exists_when`-filtered queryset). -/
def execute_all_delayed (cls : CondClass) (now : Nat) (db : DBState) :
    Except Unit (DBState × List Event) :=
  match get_query_set cls with
  | Except.ok pks => Except.ok (foldRun (fun pk => execute_delayed_actions cls pk now) pks db)
  | Except.error e => Except.error e

/-- `ConditionClass.execute_all_recurring`: `execute_recurring_actions` for every
subject in `cls.objects.all()`. -/
def execute_all_recurring (cls : CondClass) (now : Nat) (db : DBState) :
    Except Unit (DBState × List Event) :=
  match get_query_set cls with
  | Except.ok pks => Except.ok (foldRun (fun pk => execute_recurring_actions cls pk now) pks db)
  | Except.error e => Except.error e

/-- The per-class body of `Command.handle` in `processconditions.py`:
`create_all_conditions`, `end_all_conditions`, then — when executing — the delayed
and recurring passes.  Any exception propagates. -/
def processClass (cls : CondClass) (execute : Bool) (now : Nat) (db : DBState) :
    Except Unit (DBState × List Event) :=
  match create_all_conditions cls execute now db with
  | Except.error e => Except.error e
  | Except.ok s1 =>
    match end_all_conditions cls execute now s1.1 with
    | Except.error e => Except.error e
    | Except.ok s2 =>
      if execute then
        match execute_all_delayed cls now s2.1 with
        | Except.error e => Except.error e
        | Except.ok s3 =>
          match execute_all_recurring cls now s3.1 with
          | Except.error e => Except.error e
          | Except.ok s4 => Except.ok (s4.1, s1.2 ++ s2.2 ++ s3.2 ++ s4.2)
      else Except.ok (s2.1, s1.2 ++ s2.2)

/-- `Command.handle`'s loop over the condition classes.  There is no try/except
around the body, so an exception raised while processing one class aborts the loop:
the returned flag is `false` and the remaining classes are untouched. -/
def handleClasses : List CondClass → Bool → Nat → DBState → DBState × List Event × Bool
  | [], _, _, db => (db, [], true)
  | cls :: rest, execute, now, db =>
      match processClass cls execute now db with
      | Except.error _ => (db, [], false)
      | Except.ok s =>
          let res := handleClasses rest execute now s.1
          (res.1, s.2 ++ res.2.1, res.2.2)

/-- One reconciliation pass for a class, as the spec's `Reconcile`:
`create_all_conditions` followed by `end_all_conditions`. -/
def reconcile (cls : CondClass) (execute : Bool) (now : Nat) (db : DBState) :
    Except Unit (DBState × List Event) :=
  match create_all_conditions cls execute now db with
  | Except.error e => Except.error e
  | Except.ok s1 =>
    match end_all_conditions cls execute now s1.1 with
    | Except.error e => Except.error e
    | Except.ok s2 => Except.ok (s2.1, s1.2 ++ s2.2)

/-- No two distinct rows are simultaneously open for the same
`(content_type, object_id)` pair. -/
def atMostOneOpen (db : DBState) : Prop :=
  List.Pairwise (fun c1 c2 =>
    ¬(c1.ended = none ∧ c2.ended = none ∧
      c1.contentType = c2.contentType ∧ c1.objectId = c2.objectId)) db.conditions

/-- Database well-formedness: the at-most-one-open invariant, distinct primary keys,
and every primary key below the next fresh one. -/
def wellFormed (db : DBState) : Prop :=
  atMostOneOpen db ∧ (db.conditions.map (fun c => c.id)).Nodup ∧
    ∀ c ∈ db.conditions, c.id < db.nextId

/-- The open rows for one `(content_type, object_id)` pair. -/
def openFor (db : DBState) (ct pk : Nat) : List Condition :=
  db.conditions.filter (fun c => c.ended.isNone && c.contentType == ct && c.objectId == pk)

/-- The engine operations named by the invariant claim: reading the condition
property, creating conditions (directly or over `to_be_created`), executing each
trigger class, and ending conditions (directly or over `to_be_ended`). -/
inductive EngineOp where
  | getOrCreate (ct pk now : Nat)
  | createCond (cls : CondClass) (pk : Nat) (execute : Bool) (now : Nat)
  | createAll (cls : CondClass) (execute : Bool) (now : Nat)
  | execInitial (cls : CondClass) (pk now : Nat)
  | execDelayed (cls : CondClass) (pk now : Nat)
  | execRecurring (cls : CondClass) (pk now : Nat)
  | execEnding (cls : CondClass) (pk now : Nat)
  | execAllDelayed (cls : CondClass) (now : Nat)
  | execAllRecurring (cls : CondClass) (now : Nat)
  | endCond (cls : CondClass) (pk : Nat) (execute : Bool) (endedDate : Option Nat) (now : Nat)
  | endAll (cls : CondClass) (execute : Bool) (now : Nat)

/-- The state reached by one engine operation.  A manager operation that raises
`NoExistsWhen` does so while evaluating its queryset, before any write, so the
state is returned unchanged in the error case. -/
def applyOp (op : EngineOp) (db : DBState) : DBState :=
  match op with
  | EngineOp.getOrCreate ct pk now => (get_or_create_condition ct pk now db).2
  | EngineOp.createCond cls pk ex now => (create_condition cls pk ex now db).1
  | EngineOp.createAll cls ex now =>
      match create_all_conditions cls ex now db with
      | Except.ok s => s.1
      | Except.error _ => db
  | EngineOp.execInitial cls pk now => (execute_initial_actions cls pk now db).1
  | EngineOp.execDelayed cls pk now => (execute_delayed_actions cls pk now db).1
  | EngineOp.execRecurring cls pk now => (execute_recurring_actions cls pk now db).1
  | EngineOp.execEnding cls pk now => (execute_ending_actions cls pk now db).1
  | EngineOp.execAllDelayed cls now =>
      match execute_all_delayed cls now db with
      | Except.ok s => s.1
      | Except.error _ => db
  | EngineOp.execAllRecurring cls now =>
      match execute_all_recurring cls now db with
      | Except.ok s => s.1
      | Except.error _ => db
  | EngineOp.endCond cls pk ex ed now => (end_condition cls pk ex ed now db).1
  | EngineOp.endAll cls ex now =>
      match end_all_conditions cls ex now db with
      | Except.ok s => s.1
      | Except.error _ => db

/-- Every invocation event in a pass's event list is preceded by the insertion of
its own `Action` row. -/
def recordBeforeInvoke (tr : List Event) : Prop :=
  ∀ (i : Nat) cid t name, tr[i]? = some (Event.invoke cid t name) →
    ∃ j : Nat, j < i ∧ tr[j]? = some (Event.record cid t name)

/-- The record/invoke event pairs emitted for one list of actions on one condition. -/
def pairedEvents (cid : Nat) (t : ActionType) : List ActionDecl → List Event
  | [] => []
  | a :: rest =>
      Event.record cid t a.name :: Event.invoke cid t a.name :: pairedEvents cid t rest

/-- The `Action` row the execute loop inserts for one action method. -/
def rowOf (cid : Nat) (t : ActionType) (now : Nat) (a : ActionDecl) : ActionRec :=
  ⟨cid, t, a.name, now⟩

/-- Closed rows of the first state all survive into the second. -/
def closedRetained (db db' : DBState) : Prop :=
  ∀ c ∈ db.conditions, c.ended ≠ none → c ∈ db'.conditions

/-- The second state's condition table extends the first's by appending. -/
def extendsDB (db db' : DBState) : Prop :=
  ∃ l, db'.conditions = db.conditions ++ l

theorem extendsDB_refl (db : DBState) : extendsDB db db := ⟨[], (List.append_nil _).symm⟩

theorem extendsDB_trans {db1 db2 db3 : DBState} (h1 : extendsDB db1 db2)
    (h2 : extendsDB db2 db3) : extendsDB db1 db3 := by
  obtain ⟨l1, e1⟩ := h1
  obtain ⟨l2, e2⟩ := h2
  exact ⟨l1 ++ l2, by rw [e2, e1, List.append_assoc]⟩

theorem closedRetained_of_extendsDB {db db' : DBState} (h : extendsDB db db') :
    closedRetained db db' := by
  obtain ⟨l, e⟩ := h
  intro c hc _
  rw [e]
  exact List.mem_append_left _ hc

theorem closedRetained_trans {db1 db2 db3 : DBState} (h1 : closedRetained db1 db2)
    (h2 : closedRetained db2 db3) : closedRetained db1 db3 :=
  fun c hc he => h2 c (h1 c hc he) he

theorem get_or_create_found {db : DBState} {ct pk : Nat} {c : Condition} (now : Nat)
    (h : findOpenCondition db ct pk = some c) :
    get_or_create_condition ct pk now db = (c, db) := by
  unfold get_or_create_condition
  rw [h]

theorem get_or_create_notFound {db : DBState} {ct pk : Nat} (now : Nat)
    (h : findOpenCondition db ct pk = none) :
    get_or_create_condition ct pk now db =
      (⟨db.nextId, ct, pk, now, none⟩,
       ⟨db.conditions ++ [⟨db.nextId, ct, pk, now, none⟩], db.actions, db.nextId + 1⟩) := by
  unfold get_or_create_condition
  rw [h]

theorem findOpen_eq_of_conditions {db db' : DBState} (h : db'.conditions = db.conditions)
    (ct pk : Nat) : findOpenCondition db' ct pk = findOpenCondition db ct pk := by
  unfold findOpenCondition open_conditions
  rw [h]

theorem createAction_conditions (db : DBState) (cid : Nat) (t : ActionType)
    (name : String) (now : Nat) : (createAction db cid t name now).conditions = db.conditions :=
  rfl

theorem createAction_actions (db : DBState) (cid : Nat) (t : ActionType)
    (name : String) (now : Nat) :
    (createAction db cid t name now).actions = db.actions ++ [⟨cid, t, name, now⟩] :=
  rfl

theorem findOpen_mono {db db' : DBState} (h : extendsDB db db') {ct pk : Nat} {c : Condition}
    (hc : findOpenCondition db ct pk = some c) : findOpenCondition db' ct pk = some c := by
  obtain ⟨l, e⟩ := h
  unfold findOpenCondition open_conditions at hc ⊢
  rw [e, List.filter_append, List.find?_append, hc]
  rfl

/-- The condition returned by `get_or_create_condition` is an open row with the
requested content type and object id, stored in the returned state. -/
theorem get_or_create_mem (ct pk now : Nat) (db : DBState) :
    (get_or_create_condition ct pk now db).1 ∈ (get_or_create_condition ct pk now db).2.conditions ∧
    (get_or_create_condition ct pk now db).1.ended = none ∧
    (get_or_create_condition ct pk now db).1.contentType = ct ∧
    (get_or_create_condition ct pk now db).1.objectId = pk := by
  unfold get_or_create_condition
  cases h : findOpenCondition db ct pk with
  | some c =>
      have hm := List.mem_of_find?_eq_some h
      have hp := List.find?_some h
      simp only [open_conditions, List.mem_filter, Option.isNone_iff_eq_none] at hm
      simp only [Bool.and_eq_true, beq_iff_eq] at hp
      exact ⟨hm.1, hm.2, hp.1, hp.2⟩
  | none => simp

/-- After `get_or_create_condition`, the open row for the pair is exactly the
returned condition. -/
theorem findOpen_after_get_or_create (ct pk now : Nat) (db : DBState) :
    findOpenCondition (get_or_create_condition ct pk now db).2 ct pk =
      some (get_or_create_condition ct pk now db).1 := by
  unfold get_or_create_condition
  cases h : findOpenCondition db ct pk with
  | some c => exact h
  | none =>
      simp only
      unfold findOpenCondition open_conditions at h ⊢
      simp only [List.filter_append, List.find?_append, h]
      simp

theorem extendsDB_get_or_create (ct pk now : Nat) (db : DBState) :
    extendsDB db (get_or_create_condition ct pk now db).2 := by
  unfold get_or_create_condition
  cases h : findOpenCondition db ct pk with
  | some c => exact extendsDB_refl db
  | none => exact ⟨[⟨db.nextId, ct, pk, now, none⟩], rfl⟩

/-- Frame rule: creating the condition of one pair does not change the open row of
any other pair. -/
theorem findOpen_frame_get_or_create {ct pk : Nat} (now : Nat) (db : DBState)
    {ct' pk' : Nat} (hne : ¬(ct' = ct ∧ pk' = pk)) :
    findOpenCondition (get_or_create_condition ct pk now db).2 ct' pk' =
      findOpenCondition db ct' pk' := by
  unfold get_or_create_condition
  cases h : findOpenCondition db ct pk with
  | some c => rfl
  | none =>
      simp only
      unfold findOpenCondition open_conditions
      simp only [List.filter_append, List.find?_append]
      have : (List.filter (fun c => c.ended.isNone)
          [(⟨db.nextId, ct, pk, now, none⟩ : Condition)]).find?
            (fun c => c.contentType == ct' && c.objectId == pk') = none := by
        rw [List.find?_eq_none]
        intro x hx
        simp only [List.mem_filter, List.mem_singleton] at hx
        obtain ⟨hx1, -⟩ := hx
        subst hx1
        simp only [Bool.and_eq_true, beq_iff_eq, not_and]
        intro h1 h2
        exact absurd ⟨h1.symm, h2.symm⟩ hne
      rw [this]
      simp

theorem wf_get_or_create (ct pk now : Nat) {db : DBState} (h : wellFormed db) :
    wellFormed (get_or_create_condition ct pk now db).2 := by
  obtain ⟨hpw, hnd, hlt⟩ := h
  unfold get_or_create_condition
  cases hf : findOpenCondition db ct pk with
  | some c => exact ⟨hpw, hnd, hlt⟩
  | none =>
      simp only
      refine ⟨?_, ?_, ?_⟩
      · unfold atMostOneOpen at hpw ⊢
        simp only
        rw [List.pairwise_append]
        refine ⟨hpw, List.pairwise_singleton _ _, ?_⟩
        intro a ha b hb
        simp only [List.mem_singleton] at hb
        subst hb
        rintro ⟨hopen, -, hct, hpk⟩
        unfold findOpenCondition at hf
        rw [List.find?_eq_none] at hf
        refine hf a ?_ ?_
        · simp only [open_conditions, List.mem_filter, Option.isNone_iff_eq_none]
          exact ⟨ha, hopen⟩
        · simp only [Bool.and_eq_true, beq_iff_eq]
          exact ⟨hct, hpk⟩
      · simp only [List.map_append, List.map_cons, List.map_nil]
        rw [List.nodup_append]
        refine ⟨hnd, List.nodup_singleton _, ?_⟩
        intro i hi
        simp only [List.mem_singleton]
        intro he
        simp only [List.mem_map] at hi
        obtain ⟨c, hc, hci⟩ := hi
        have := hlt c hc
        omega
      · intro c hc
        simp only [List.mem_append, List.mem_singleton] at hc
        dsimp only
        rcases hc with hc | hc
        · have := hlt c hc
          omega
        · subst hc
          dsimp only
          omega

theorem wf_createAction {db : DBState} (cid : Nat) (t : ActionType) (name : String)
    (now : Nat) (h : wellFormed db) : wellFormed (createAction db cid t name now) := h

/-- Updating `ended` preserves primary keys. -/
theorem closeCondition_id (cid endedAt : Nat) (x : Condition) :
    (if x.id == cid then { x with ended := some endedAt } else x).id = x.id := by
  by_cases h : x.id == cid <;> simp [h]

theorem wf_closeCondition (cid endedAt : Nat) {db : DBState} (h : wellFormed db) :
    wellFormed (closeCondition db cid endedAt) := by
  obtain ⟨hpw, hnd, hlt⟩ := h
  refine ⟨?_, ?_, ?_⟩
  · unfold atMostOneOpen at hpw
    unfold atMostOneOpen closeCondition
    simp only
    rw [List.pairwise_map]
    refine hpw.imp ?_
    intro a b hab
    rintro ⟨ha, hb, hct, hpk⟩
    by_cases h1 : a.id == cid
    · simp [h1] at ha
    · by_cases h2 : b.id == cid
      · simp [h2] at hb
      · simp only [h1, h2, if_neg, Bool.false_eq_true, if_false] at ha hb hct hpk
        exact hab ⟨ha, hb, hct, hpk⟩
  · unfold closeCondition
    simp only [List.map_map]
    have : ((fun c : Condition => c.id) ∘
        (fun x => if x.id == cid then { x with ended := some endedAt } else x)) =
        (fun c : Condition => c.id) := by
      funext x
      exact closeCondition_id cid endedAt x
    rw [this]
    exact hnd
  · intro c hc
    unfold closeCondition at hc
    simp only [List.mem_map] at hc
    obtain ⟨x, hx, hxc⟩ := hc
    have hid : c.id = x.id := by
      rw [← hxc]
      exact closeCondition_id cid endedAt x
    rw [hid]
    exact hlt x hx

/-- When the open condition for the pair already exists, the execute loop leaves the
condition table untouched, appends exactly one `Action` row per action in order, and
emits the record/invoke pairs for that condition. -/
theorem runActions_spec (t : ActionType) {ct pk : Nat} (now : Nat)
    (decls : List ActionDecl) {db : DBState} {c : Condition}
    (hc : findOpenCondition db ct pk = some c) :
    runActions t ct pk now decls db =
      ({ db with actions := db.actions ++ decls.map (rowOf c.id t now) },
       pairedEvents c.id t decls) := by
  induction decls generalizing db with
  | nil => simp [runActions, pairedEvents]
  | cons a rest ih =>
      unfold runActions
      rw [get_or_create_found now hc]
      simp only
      have hc2 : findOpenCondition (createAction db c.id t a.name now) ct pk = some c :=
        (findOpen_eq_of_conditions (createAction_conditions db c.id t a.name now) ct pk).trans hc
      rw [ih hc2]
      simp [createAction, pairedEvents, rowOf, List.append_assoc]

/-- Without assumptions, the execute loop only ever appends conditions (via the
condition property) and preserves well-formedness. -/
theorem runActions_wf (t : ActionType) (ct pk now : Nat) (decls : List ActionDecl)
    {db : DBState} (h : wellFormed db) :
    wellFormed (runActions t ct pk now decls db).1 ∧
      extendsDB db (runActions t ct pk now decls db).1 := by
  induction decls generalizing db with
  | nil => exact ⟨h, extendsDB_refl db⟩
  | cons a rest ih =>
      unfold runActions
      simp only
      have h1 : wellFormed (get_or_create_condition ct pk now db).2 :=
        wf_get_or_create ct pk now h
      have h2 := @ih (createAction (get_or_create_condition ct pk now db).2
        (get_or_create_condition ct pk now db).1.id t a.name now) h1
      refine ⟨h2.1, extendsDB_trans (extendsDB_get_or_create ct pk now db) h2.2⟩

/-- The condition-table effect of the execute loop: none for an empty action list,
otherwise that of the first `self.condition` read. -/
theorem runActions_conditions (t : ActionType) (ct pk now : Nat)
    (decls : List ActionDecl) (db : DBState) :
    (runActions t ct pk now decls db).1.conditions =
      match decls with
      | [] => db.conditions
      | _ :: _ => (get_or_create_condition ct pk now db).2.conditions := by
  induction decls generalizing db with
  | nil => rfl
  | cons a rest ih =>
      unfold runActions
      simp only
      rw [ih]
      cases rest with
      | nil => rfl
      | cons b bs =>
          simp only
          have hfind : findOpenCondition (createAction (get_or_create_condition ct pk now db).2
              (get_or_create_condition ct pk now db).1.id t a.name now) ct pk =
              some (get_or_create_condition ct pk now db).1 := by
            rw [findOpen_eq_of_conditions (createAction_conditions _ _ _ _ _)]
            exact findOpen_after_get_or_create ct pk now db
          rw [get_or_create_found now hfind]
          rfl

theorem findOpen_some_spec {db : DBState} {ct pk : Nat} {c : Condition}
    (h : findOpenCondition db ct pk = some c) :
    c ∈ db.conditions ∧ c.ended = none ∧ c.contentType = ct ∧ c.objectId = pk := by
  have hm := List.mem_of_find?_eq_some h
  have hp := List.find?_some h
  simp only [open_conditions, List.mem_filter, Option.isNone_iff_eq_none] at hm
  simp only [Bool.and_eq_true, beq_iff_eq] at hp
  exact ⟨hm.1, hm.2, hp.1, hp.2⟩

/-- Under the invariant, two open rows for the same pair are the same row. -/
theorem open_unique {db : DBState} (h : atMostOneOpen db) {c x : Condition}
    (hc : c ∈ db.conditions) (hx : x ∈ db.conditions)
    (hco : c.ended = none) (hxo : x.ended = none)
    (hct : c.contentType = x.contentType) (hpk : c.objectId = x.objectId) : c = x := by
  by_contra hne
  have hsym : Symmetric (fun c1 c2 : Condition =>
      ¬(c1.ended = none ∧ c2.ended = none ∧
        c1.contentType = c2.contentType ∧ c1.objectId = c2.objectId)) := by
    intro a b hab
    rintro ⟨h1, h2, h3, h4⟩
    exact hab ⟨h2, h1, h3.symm, h4.symm⟩
  exact (h.forall hsym) hc hx hne ⟨hco, hxo, hct, hpk⟩

theorem id_ne_of_open_closed {db : DBState} (hwf : wellFormed db) {o c : Condition}
    (ho : o ∈ db.conditions) (hc : c ∈ db.conditions)
    (hoo : o.ended = none) (hcc : c.ended ≠ none) : c.id ≠ o.id := by
  intro he
  have := List.inj_on_of_nodup_map hwf.2.1 hc ho he
  subst this
  exact hcc hoo

/-- Closing the unique open row of a pair leaves no open row for that pair. -/
theorem findOpen_close_self {db : DBState} {ct pk : Nat} {c : Condition} (e : Nat)
    (hwf : wellFormed db) (h : findOpenCondition db ct pk = some c) :
    findOpenCondition (closeCondition db c.id e) ct pk = none := by
  obtain ⟨hcm, hco, hct, hpk⟩ := findOpen_some_spec h
  unfold findOpenCondition open_conditions closeCondition
  rw [List.find?_eq_none]
  intro y hy
  simp only [List.mem_filter, List.mem_map, Option.isNone_iff_eq_none] at hy
  obtain ⟨⟨x, hx, hfx⟩, hopen⟩ := hy
  by_cases hid : x.id == c.id
  · rw [if_pos hid] at hfx
    rw [← hfx] at hopen
    simp at hopen
  · rw [if_neg hid] at hfx
    rw [← hfx] at hopen ⊢
    simp only [Bool.and_eq_true, beq_iff_eq, not_and]
    intro h1 h2
    have hcx : c = x := open_unique hwf.1 hcm hx hco hopen (hct.trans h1.symm) (hpk.trans h2.symm)
    rw [← hcx] at hid
    simp at hid

/-- List-level form of the frame rule for closing one row. -/
theorem find_close_aux (cid e ct' pk' : Nat) :
    ∀ l : List Condition,
      (∀ x ∈ l, x.id = cid → x.ended = none → ¬(x.contentType = ct' ∧ x.objectId = pk')) →
      ((l.map (fun x => if x.id == cid then { x with ended := some e } else x)).filter
          (fun c => c.ended.isNone)).find?
            (fun c => c.contentType == ct' && c.objectId == pk') =
        (l.filter (fun c => c.ended.isNone)).find?
          (fun c => c.contentType == ct' && c.objectId == pk') := by
  intro l
  induction l with
  | nil => intro _; rfl
  | cons x l ih =>
      intro hyp
      have hyp' : ∀ y ∈ l, y.id = cid → y.ended = none →
          ¬(y.contentType = ct' ∧ y.objectId = pk') :=
        fun y hy => hyp y (List.mem_cons_of_mem x hy)
      simp only [List.map_cons]
      rw [List.filter_cons, List.filter_cons]
      by_cases hid : (x.id == cid) = true
      · rw [if_pos hid]
        have hclosed : ¬(({ x with ended := some e } : Condition).ended.isNone = true) := by simp
        rw [if_neg hclosed]
        by_cases hopen : (x.ended.isNone = true)
        · rw [if_pos hopen]
          have hx0 : (x.contentType == ct' && x.objectId == pk') = false := by
            rw [Bool.eq_false_iff]
            simp only [ne_eq, Bool.and_eq_true, beq_iff_eq, not_and]
            intro h1 h2
            exact hyp x (List.mem_cons_self x l) (by simpa using hid)
              (Option.isNone_iff_eq_none.mp hopen) ⟨h1, h2⟩
          simp only [List.find?_cons, hx0]
          exact ih hyp'
        · rw [if_neg hopen]
          exact ih hyp'
      · rw [if_neg hid]
        by_cases hopen : (x.ended.isNone = true)
        · rw [if_pos hopen, if_pos hopen]
          simp only [List.find?_cons]
          cases hx0 : (x.contentType == ct' && x.objectId == pk') with
          | true => rfl
          | false => exact ih hyp'
        · rw [if_neg hopen, if_neg hopen]
          exact ih hyp'

/-- Frame rule: closing a row that could not be the open row of a pair leaves that
pair's open row unchanged. -/
theorem findOpen_close_frame {db : DBState} {cid : Nat} (e : Nat) {ct' pk' : Nat}
    (hyp : ∀ x ∈ db.conditions, x.id = cid → x.ended = none →
      ¬(x.contentType = ct' ∧ x.objectId = pk')) :
    findOpenCondition (closeCondition db cid e) ct' pk' = findOpenCondition db ct' pk' := by
  unfold findOpenCondition open_conditions closeCondition
  exact find_close_aux cid e ct' pk' db.conditions hyp

/-- Membership in `_get_ids_with_conditions` is exactly having an open condition. -/
theorem mem_ids_iff (cls : CondClass) (db : DBState) (pk : Nat) :
    pk ∈ get_ids_with_conditions cls db ↔
      (findOpenCondition db cls.ct pk).isSome = true := by
  unfold get_ids_with_conditions findOpenCondition
  rw [List.find?_isSome]
  constructor
  · intro h
    simp only [List.mem_map, List.mem_filter, beq_iff_eq] at h
    obtain ⟨c, ⟨hc, hct⟩, hpk⟩ := h
    exact ⟨c, hc, by simp [hct, hpk]⟩
  · rintro ⟨c, hc, hp⟩
    simp only [Bool.and_eq_true, beq_iff_eq] at hp
    simp only [List.mem_map, List.mem_filter, beq_iff_eq]
    exact ⟨c, ⟨hc, hp.1⟩, hp.2⟩

theorem pairwise_filter_open_length (ct pk : Nat) :
    ∀ l : List Condition,
      List.Pairwise (fun c1 c2 => ¬(c1.ended = none ∧ c2.ended = none ∧
        c1.contentType = c2.contentType ∧ c1.objectId = c2.objectId)) l →
      (l.filter (fun c =>
        c.ended.isNone && c.contentType == ct && c.objectId == pk)).length ≤ 1 := by
  intro l
  induction l with
  | nil => intro _; simp
  | cons c l ih =>
      intro h
      rw [List.pairwise_cons] at h
      obtain ⟨hR, hl⟩ := h
      rw [List.filter_cons]
      by_cases hc : (c.ended.isNone && c.contentType == ct && c.objectId == pk) = true
      · rw [if_pos hc]
        have hnil : List.filter (fun x =>
            x.ended.isNone && x.contentType == ct && x.objectId == pk) l = [] := by
          rw [List.filter_eq_nil_iff]
          intro b hb hbp
          simp only [Bool.and_eq_true, beq_iff_eq, Option.isNone_iff_eq_none] at hc hbp
          exact hR b hb ⟨hc.1.1, hbp.1.1, hc.1.2.trans hbp.1.2.symm, hc.2.trans hbp.2.symm⟩
        rw [hnil]
        simp
      · rw [if_neg hc]
        exact ih hl

/-- The at-most-one-open invariant bounds the number of open rows of every pair. -/
theorem openFor_length_le_one {db : DBState} (h : atMostOneOpen db) (ct pk : Nat) :
    (openFor db ct pk).length ≤ 1 :=
  pairwise_filter_open_length ct pk db.conditions h

/-- `create_condition` leaves the condition table exactly as the initial
`self.condition` read left it: the initial-actions loop never adds a row. -/
theorem create_condition_conditions (cls : CondClass) (pk : Nat) (ex : Bool)
    (now : Nat) (db : DBState) :
    (create_condition cls pk ex now db).1.conditions =
      (get_or_create_condition cls.ct pk now db).2.conditions := by
  unfold create_condition execute_initial_actions
  cases ex with
  | false => rfl
  | true =>
      simp only [if_true]
      rw [runActions_conditions]
      cases get_action_methods cls ActionType.initial with
      | nil => rfl
      | cons a rest =>
          simp only
          rw [get_or_create_found now (findOpen_after_get_or_create cls.ct pk now db)]

theorem create_condition_findOpen (cls : CondClass) (pk : Nat) (ex : Bool)
    (now : Nat) (db : DBState) (ct' pk' : Nat) :
    findOpenCondition (create_condition cls pk ex now db).1 ct' pk' =
      findOpenCondition (get_or_create_condition cls.ct pk now db).2 ct' pk' :=
  findOpen_eq_of_conditions (create_condition_conditions cls pk ex now db) ct' pk'

theorem create_condition_isSome (cls : CondClass) (pk : Nat) (ex : Bool)
    (now : Nat) (db : DBState) :
    (findOpenCondition (create_condition cls pk ex now db).1 cls.ct pk).isSome = true := by
  rw [create_condition_findOpen, findOpen_after_get_or_create]
  rfl

theorem create_condition_frame (cls : CondClass) (pk : Nat) (ex : Bool) (now : Nat)
    (db : DBState) {ct' pk' : Nat} (hne : ¬(ct' = cls.ct ∧ pk' = pk)) :
    findOpenCondition (create_condition cls pk ex now db).1 ct' pk' =
      findOpenCondition db ct' pk' := by
  rw [create_condition_findOpen]
  exact findOpen_frame_get_or_create now db hne

theorem create_condition_mono (cls : CondClass) (pk : Nat) (ex : Bool) (now : Nat)
    (db : DBState) {ct' pk' : Nat} {c : Condition}
    (h : findOpenCondition db ct' pk' = some c) :
    findOpenCondition (create_condition cls pk ex now db).1 ct' pk' = some c := by
  rw [create_condition_findOpen]
  exact findOpen_mono (extendsDB_get_or_create cls.ct pk now db) h

theorem create_condition_wf (cls : CondClass) (pk : Nat) (ex : Bool) (now : Nat)
    {db : DBState} (h : wellFormed db) :
    wellFormed (create_condition cls pk ex now db).1 := by
  unfold create_condition execute_initial_actions
  cases ex with
  | false => exact wf_get_or_create cls.ct pk now h
  | true =>
      simp only [if_true]
      exact (runActions_wf _ _ _ _ _ (wf_get_or_create cls.ct pk now h)).1

/-- The condition-table effect of the delayed pass is that of its one
`self.condition` read. -/
theorem execute_delayed_conditions (cls : CondClass) (pk now : Nat) (db : DBState) :
    (execute_delayed_actions cls pk now db).1.conditions =
      (get_or_create_condition cls.ct pk now db).2.conditions := by
  unfold execute_delayed_actions get_triggered_delayed_actions
  simp only
  rw [runActions_conditions]
  cases (get_action_methods cls ActionType.delayed).filter _ with
  | nil => rfl
  | cons a rest =>
      simp only
      rw [get_or_create_found now (findOpen_after_get_or_create cls.ct pk now db)]

theorem execute_recurring_conditions (cls : CondClass) (pk now : Nat) (db : DBState) :
    (execute_recurring_actions cls pk now db).1.conditions =
      (get_or_create_condition cls.ct pk now db).2.conditions := by
  unfold execute_recurring_actions get_triggered_recurring_actions
  simp only
  rw [runActions_conditions]
  cases (get_action_methods cls ActionType.recurring).filter _ with
  | nil => rfl
  | cons a rest =>
      simp only
      rw [get_or_create_found now (findOpen_after_get_or_create cls.ct pk now db)]

theorem execute_delayed_wf (cls : CondClass) (pk now : Nat) {db : DBState}
    (h : wellFormed db) : wellFormed (execute_delayed_actions cls pk now db).1 := by
  unfold execute_delayed_actions get_triggered_delayed_actions
  simp only
  exact (runActions_wf _ _ _ _ _ (wf_get_or_create cls.ct pk now h)).1

theorem execute_recurring_wf (cls : CondClass) (pk now : Nat) {db : DBState}
    (h : wellFormed db) : wellFormed (execute_recurring_actions cls pk now db).1 := by
  unfold execute_recurring_actions get_triggered_recurring_actions
  simp only
  exact (runActions_wf _ _ _ _ _ (wf_get_or_create cls.ct pk now h)).1

/-- Well-formedness is insensitive to the action table. -/
theorem wf_actions_only {db : DBState} (actions : List ActionRec) (h : wellFormed db) :
    wellFormed ⟨db.conditions, actions, db.nextId⟩ := h

/-- Effects of `end_condition` on a pair that has an open condition: that pair's
open row is closed (and only rows with its primary key are touched), no open row
remains for the pair, every other pair is untouched, and well-formedness holds. -/
theorem end_condition_spec (cls : CondClass) (pk : Nat) (ex : Bool)
    (endedDate : Option Nat) (now : Nat) {db : DBState} {c : Condition}
    (hwf : wellFormed db) (hc : findOpenCondition db cls.ct pk = some c) :
    (end_condition cls pk ex endedDate now db).1.conditions =
      db.conditions.map (fun x =>
        if x.id == c.id then { x with ended := some (endedDate.getD now) } else x) ∧
    wellFormed (end_condition cls pk ex endedDate now db).1 ∧
    findOpenCondition (end_condition cls pk ex endedDate now db).1 cls.ct pk = none ∧
    (∀ ct' pk', ¬(ct' = cls.ct ∧ pk' = pk) →
      findOpenCondition (end_condition cls pk ex endedDate now db).1 ct' pk' =
        findOpenCondition db ct' pk') := by
  obtain ⟨hcm, hco, hct, hpk⟩ := findOpen_some_spec hc
  have hstep : (if ex then execute_ending_actions cls pk now db else (db, [])).1.conditions
      = db.conditions ∧ wellFormed (if ex then execute_ending_actions cls pk now db
        else (db, [])).1 := by
    cases ex with
    | false => exact ⟨rfl, hwf⟩
    | true =>
        simp only [if_true]
        unfold execute_ending_actions
        rw [runActions_spec ActionType.ending now _ hc]
        exact ⟨rfl, hwf⟩
  set step1 := (if ex then execute_ending_actions cls pk now db else (db, [])).1 with hstep1
  have hfind1 : findOpenCondition step1 cls.ct pk = some c :=
    (findOpen_eq_of_conditions hstep.1 cls.ct pk).trans hc
  have hres : (end_condition cls pk ex endedDate now db).1 =
      closeCondition step1 c.id (endedDate.getD now) := by
    unfold end_condition
    dsimp only
    rw [← hstep1, get_or_create_found now hfind1]
  have hwf1 : wellFormed step1 := hstep.2
  refine ⟨?_, ?_, ?_, ?_⟩
  · rw [hres]
    unfold closeCondition
    rw [hstep.1]
  · rw [hres]
    exact wf_closeCondition _ _ hwf1
  · rw [hres]
    exact findOpen_close_self _ hwf1 hfind1
  · intro ct' pk' hne
    rw [hres]
    have hframe : findOpenCondition (closeCondition step1 c.id (endedDate.getD now)) ct' pk' =
        findOpenCondition step1 ct' pk' := by
      apply findOpen_close_frame
      intro x hx hxid hxopen
      rintro ⟨hxct, hxpk⟩
      rw [hstep.1] at hx
      have hxc : x = c := List.inj_on_of_nodup_map hwf.2.1 hx hcm hxid
      subst hxc
      exact hne ⟨hxct.symm.trans hct, hxpk.symm.trans hpk⟩
    rw [hframe]
    exact findOpen_eq_of_conditions hstep.1 ct' pk'

theorem end_condition_def (cls : CondClass) (pk : Nat) (ex : Bool) (ed : Option Nat)
    (now : Nat) (db : DBState) :
    (end_condition cls pk ex ed now db).1 =
      closeCondition (get_or_create_condition cls.ct pk now
          (if ex then execute_ending_actions cls pk now db else (db, [])).1).2
        (get_or_create_condition cls.ct pk now
          (if ex then execute_ending_actions cls pk now db else (db, [])).1).1.id
        (ed.getD now) := rfl

theorem end_condition_wf_retained (cls : CondClass) (pk : Nat) (ex : Bool)
    (ed : Option Nat) (now : Nat) {db : DBState} (hwf : wellFormed db) :
    wellFormed (end_condition cls pk ex ed now db).1 ∧
      closedRetained db (end_condition cls pk ex ed now db).1 := by
  have hstep : wellFormed (if ex then execute_ending_actions cls pk now db
        else (db, [])).1 ∧
      extendsDB db (if ex then execute_ending_actions cls pk now db else (db, [])).1 := by
    cases ex with
    | false => exact ⟨hwf, extendsDB_refl db⟩
    | true =>
        simp only [if_true]
        exact runActions_wf _ _ _ _ _ hwf
  set mid := (if ex then execute_ending_actions cls pk now db else (db, [])).1
  have hwf2 : wellFormed (get_or_create_condition cls.ct pk now mid).2 :=
    wf_get_or_create cls.ct pk now hstep.1
  have hext2 : extendsDB db (get_or_create_condition cls.ct pk now mid).2 :=
    extendsDB_trans hstep.2 (extendsDB_get_or_create cls.ct pk now mid)
  rw [end_condition_def]
  refine ⟨wf_closeCondition _ _ hwf2, ?_⟩
  intro c hcm hcc
  obtain ⟨l, hl⟩ := hext2
  have hcm2 : c ∈ (get_or_create_condition cls.ct pk now mid).2.conditions := by
    rw [hl]; exact List.mem_append_left _ hcm
  obtain ⟨hom, hoo, -, -⟩ := get_or_create_mem cls.ct pk now mid
  have hid : c.id ≠ (get_or_create_condition cls.ct pk now mid).1.id :=
    id_ne_of_open_closed hwf2 hom hcm2 hoo hcc
  unfold closeCondition
  simp only [List.mem_map]
  refine ⟨c, hcm2, ?_⟩
  rw [if_neg (by simpa using hid)]

theorem create_condition_wf_retained (cls : CondClass) (pk : Nat) (ex : Bool)
    (now : Nat) {db : DBState} (hwf : wellFormed db) :
    wellFormed (create_condition cls pk ex now db).1 ∧
      closedRetained db (create_condition cls pk ex now db).1 := by
  refine ⟨create_condition_wf cls pk ex now hwf, ?_⟩
  apply closedRetained_of_extendsDB
  obtain ⟨l, hl⟩ := extendsDB_get_or_create cls.ct pk now db
  exact ⟨l, by rw [create_condition_conditions]; exact hl⟩

theorem execute_delayed_wf_retained (cls : CondClass) (pk now : Nat) {db : DBState}
    (hwf : wellFormed db) :
    wellFormed (execute_delayed_actions cls pk now db).1 ∧
      closedRetained db (execute_delayed_actions cls pk now db).1 := by
  refine ⟨execute_delayed_wf cls pk now hwf, ?_⟩
  apply closedRetained_of_extendsDB
  obtain ⟨l, hl⟩ := extendsDB_get_or_create cls.ct pk now db
  exact ⟨l, by rw [execute_delayed_conditions]; exact hl⟩

theorem execute_recurring_wf_retained (cls : CondClass) (pk now : Nat) {db : DBState}
    (hwf : wellFormed db) :
    wellFormed (execute_recurring_actions cls pk now db).1 ∧
      closedRetained db (execute_recurring_actions cls pk now db).1 := by
  refine ⟨execute_recurring_wf cls pk now hwf, ?_⟩
  apply closedRetained_of_extendsDB
  obtain ⟨l, hl⟩ := extendsDB_get_or_create cls.ct pk now db
  exact ⟨l, by rw [execute_recurring_conditions]; exact hl⟩

theorem foldRun_wf_retained (f : Nat → DBState → DBState × List Event)
    (hf : ∀ pk db, wellFormed db → wellFormed (f pk db).1 ∧ closedRetained db (f pk db).1) :
    ∀ (L : List Nat) (db : DBState), wellFormed db →
      wellFormed (foldRun f L db).1 ∧ closedRetained db (foldRun f L db).1 := by
  intro L
  induction L with
  | nil => intro db h; exact ⟨h, fun c hc _ => hc⟩
  | cons pk rest ih =>
      intro db h
      have h1 := hf pk db h
      have h2 := ih (f pk db).1 h1.1
      exact ⟨h2.1, closedRetained_trans h1.2 h2.2⟩

theorem applyOp_wf_retained (op : EngineOp) {db : DBState} (hwf : wellFormed db) :
    wellFormed (applyOp op db) ∧ closedRetained db (applyOp op db) := by
  cases op with
  | getOrCreate ct pk now =>
      exact ⟨wf_get_or_create ct pk now hwf,
        closedRetained_of_extendsDB (extendsDB_get_or_create ct pk now db)⟩
  | createCond cls pk ex now => exact create_condition_wf_retained cls pk ex now hwf
  | createAll cls ex now =>
      cases h : to_be_created cls db with
      | error e =>
          simp only [applyOp, create_all_conditions, h]
          exact ⟨hwf, fun c hc _ => hc⟩
      | ok pks =>
          simp only [applyOp, create_all_conditions, h]
          exact foldRun_wf_retained _
            (fun pk d hh => create_condition_wf_retained cls pk ex now hh) pks db hwf
  | execInitial cls pk now =>
      have h := runActions_wf ActionType.initial cls.ct pk now
        (get_action_methods cls ActionType.initial) hwf
      exact ⟨h.1, closedRetained_of_extendsDB h.2⟩
  | execDelayed cls pk now => exact execute_delayed_wf_retained cls pk now hwf
  | execRecurring cls pk now => exact execute_recurring_wf_retained cls pk now hwf
  | execEnding cls pk now =>
      have h := runActions_wf ActionType.ending cls.ct pk now
        (get_action_methods cls ActionType.ending) hwf
      exact ⟨h.1, closedRetained_of_extendsDB h.2⟩
  | execAllDelayed cls now =>
      cases h : get_query_set cls with
      | error e =>
          simp only [applyOp, execute_all_delayed, h]
          exact ⟨hwf, fun c hc _ => hc⟩
      | ok pks =>
          simp only [applyOp, execute_all_delayed, h]
          exact foldRun_wf_retained _
            (fun pk d hh => execute_delayed_wf_retained cls pk now hh) pks db hwf
  | execAllRecurring cls now =>
      cases h : get_query_set cls with
      | error e =>
          simp only [applyOp, execute_all_recurring, h]
          exact ⟨hwf, fun c hc _ => hc⟩
      | ok pks =>
          simp only [applyOp, execute_all_recurring, h]
          exact foldRun_wf_retained _
            (fun pk d hh => execute_recurring_wf_retained cls pk now hh) pks db hwf
  | endCond cls pk ex ed now => exact end_condition_wf_retained cls pk ex ed now hwf
  | endAll cls ex now =>
      cases h : to_be_ended cls db with
      | error e =>
          simp only [applyOp, end_all_conditions, h]
          exact ⟨hwf, fun c hc _ => hc⟩
      | ok pks =>
          simp only [applyOp, end_all_conditions, h]
          exact foldRun_wf_retained _
            (fun pk d hh => end_condition_wf_retained cls pk ex none now hh) pks db hwf

/-- C3: every engine operation (reading the condition property, creating conditions
via `to_be_created`/`get_or_create_condition`, executing actions, ending conditions)
preserves the invariant that at most one `Condition` row with `ended = null` exists
per `(content type, object id)` pair; closed conditions are retained, and when no
open condition exists for a pair, `get_or_create_condition` creates a new open one. -/
theorem C3_engine_ops_preserve_at_most_one_open (op : EngineOp) (db : DBState)
    (hwf : wellFormed db) :
    wellFormed (applyOp op db) ∧
    (∀ ct pk, (openFor (applyOp op db) ct pk).length ≤ 1) ∧
    closedRetained db (applyOp op db) ∧
    (∀ ct pk now, findOpenCondition db ct pk = none →
      ∃ c, c ∈ (get_or_create_condition ct pk now db).2.conditions ∧
        c.ended = none ∧ c.contentType = ct ∧ c.objectId = pk) := by
  have h := applyOp_wf_retained op hwf
  refine ⟨h.1, fun ct pk => openFor_length_le_one h.1.1 ct pk, h.2, ?_⟩
  intro ct pk now hnone
  rw [get_or_create_notFound now hnone]
  exact ⟨⟨db.nextId, ct, pk, now, none⟩, by simp, rfl, rfl, rfl⟩

theorem C3_witness :
    wellFormed ⟨[], [], 0⟩ ∧
    (wellFormed (applyOp (EngineOp.getOrCreate 7 1 5) ⟨[], [], 0⟩) ∧
     (∀ ct pk, (openFor (applyOp (EngineOp.getOrCreate 7 1 5) ⟨[], [], 0⟩) ct pk).length ≤ 1) ∧
     closedRetained ⟨[], [], 0⟩ (applyOp (EngineOp.getOrCreate 7 1 5) ⟨[], [], 0⟩) ∧
     (∀ ct pk now, findOpenCondition ⟨[], [], 0⟩ ct pk = none →
       ∃ c, c ∈ (get_or_create_condition ct pk now ⟨[], [], 0⟩).2.conditions ∧
         c.ended = none ∧ c.contentType = ct ∧ c.objectId = pk)) :=
  have hwf : wellFormed ⟨[], [], 0⟩ := ⟨List.Pairwise.nil, List.nodup_nil, by simp⟩
  ⟨hwf, C3_engine_ops_preserve_at_most_one_open (EngineOp.getOrCreate 7 1 5) ⟨[], [], 0⟩ hwf⟩

/-- C9: reading the condition property is a write-on-read.  When no open condition
exists for the pair — even if closed ones exist — `get_or_create_condition` creates,
persists, and returns a new open row with `ended = null` and `created = now`; when an
open condition exists it returns that row and writes nothing. -/
theorem C9_get_or_create_condition_write_on_read (ct pk now : Nat) (db : DBState) :
    (findOpenCondition db ct pk = none →
      (get_or_create_condition ct pk now db).1.created = now ∧
      (get_or_create_condition ct pk now db).1.ended = none ∧
      (get_or_create_condition ct pk now db).1.contentType = ct ∧
      (get_or_create_condition ct pk now db).1.objectId = pk ∧
      (get_or_create_condition ct pk now db).2.conditions =
        db.conditions ++ [(get_or_create_condition ct pk now db).1] ∧
      findOpenCondition (get_or_create_condition ct pk now db).2 ct pk =
        some (get_or_create_condition ct pk now db).1) ∧
    (∀ c, findOpenCondition db ct pk = some c →
      get_or_create_condition ct pk now db = (c, db)) := by
  constructor
  · intro h
    refine ⟨?_, ?_, ?_, ?_, ?_, findOpen_after_get_or_create ct pk now db⟩ <;>
      rw [get_or_create_notFound now h]
  · exact fun c hc => get_or_create_found now hc

theorem C9_witness :
    findOpenCondition ⟨[⟨0, 3, 4, 10, some 20⟩], [], 1⟩ 3 4 = none ∧
    ((get_or_create_condition 3 4 50 ⟨[⟨0, 3, 4, 10, some 20⟩], [], 1⟩).1.created = 50 ∧
     (get_or_create_condition 3 4 50 ⟨[⟨0, 3, 4, 10, some 20⟩], [], 1⟩).1.ended = none ∧
     (get_or_create_condition 3 4 50 ⟨[⟨0, 3, 4, 10, some 20⟩], [], 1⟩).1.contentType = 3 ∧
     (get_or_create_condition 3 4 50 ⟨[⟨0, 3, 4, 10, some 20⟩], [], 1⟩).1.objectId = 4 ∧
     (get_or_create_condition 3 4 50 ⟨[⟨0, 3, 4, 10, some 20⟩], [], 1⟩).2.conditions =
       [⟨0, 3, 4, 10, some 20⟩] ++
         [(get_or_create_condition 3 4 50 ⟨[⟨0, 3, 4, 10, some 20⟩], [], 1⟩).1] ∧
     findOpenCondition (get_or_create_condition 3 4 50 ⟨[⟨0, 3, 4, 10, some 20⟩], [], 1⟩).2 3 4 =
       some (get_or_create_condition 3 4 50 ⟨[⟨0, 3, 4, 10, some 20⟩], [], 1⟩).1) :=
  ⟨by decide,
   (C9_get_or_create_condition_write_on_read 3 4 50 ⟨[⟨0, 3, 4, 10, some 20⟩], [], 1⟩).1
     (by decide)⟩

/-- C6 counterexample: the `Action` model enforces no uniqueness — inserting a second
INITIAL record for the same `(condition, name)` is neither rejected nor a no-op, and
two records then exist, refuting "at most one such record can ever exist regardless
of how the recording operation is called". -/
theorem C6_counterexample :
    createAction (createAction ⟨[⟨0, 7, 1, 0, none⟩], [], 1⟩ 0 ActionType.initial "notify" 5)
        0 ActionType.initial "notify" 6 ≠
      createAction ⟨[⟨0, 7, 1, 0, none⟩], [], 1⟩ 0 ActionType.initial "notify" 5 ∧
    countRecords
      (createAction (createAction ⟨[⟨0, 7, 1, 0, none⟩], [], 1⟩ 0 ActionType.initial "notify" 5)
        0 ActionType.initial "notify" 6) 0 ActionType.initial "notify" = 2 := by
  decide

/-- C6 amended: the execution ledger itself enforces no uniqueness invariant for any
trigger: `Action.objects.create` always appends one more row, increasing the number
of records for the `(condition, trigger, name)` key by one even when such a record
already exists; at-most-once for initial and delayed triggers is maintained only by
the callers (`to_be_created` filtering for initial, the ledger-count check in
`get_triggered_delayed_actions` for delayed). -/
theorem C6_createAction_always_appends (db : DBState) (cid : Nat) (t : ActionType)
    (name : String) (now : Nat) :
    (createAction db cid t name now).actions = db.actions ++ [⟨cid, t, name, now⟩] ∧
    countRecords (createAction db cid t name now) cid t name =
      countRecords db cid t name + 1 := by
  refine ⟨rfl, ?_⟩
  unfold countRecords recordsFor createAction
  simp [List.filter_append]

theorem lexLe_total : ∀ xs ys : List Char, lexLe xs ys = true ∨ lexLe ys xs = true := by
  intro xs
  induction xs with
  | nil => intro ys; left; rfl
  | cons a as ih =>
      intro ys
      cases ys with
      | nil => right; rfl
      | cons b bs =>
          simp only [lexLe, Bool.or_eq_true, Bool.and_eq_true, decide_eq_true_eq, beq_iff_eq]
          rcases Nat.lt_trichotomy a.toNat b.toNat with h | h | h
          · left; left; exact h
          · rcases ih bs with h2 | h2
            · left; right; exact ⟨h, h2⟩
            · right; right; exact ⟨h.symm, h2⟩
          · right; left; exact h

theorem lexLe_trans : ∀ xs ys zs : List Char,
    lexLe xs ys = true → lexLe ys zs = true → lexLe xs zs = true := by
  intro xs
  induction xs with
  | nil => intro ys zs _ _; rfl
  | cons a as ih =>
      intro ys zs h1 h2
      cases ys with
      | nil => simp [lexLe] at h1
      | cons b bs =>
          cases zs with
          | nil => simp [lexLe] at h2
          | cons c cs =>
              simp only [lexLe, Bool.or_eq_true, Bool.and_eq_true, decide_eq_true_eq,
                beq_iff_eq] at h1 h2 ⊢
              rcases h1 with h1 | ⟨he1, hr1⟩
              · rcases h2 with h2 | ⟨he2, hr2⟩
                · left; omega
                · left; omega
              · rcases h2 with h2 | ⟨he2, hr2⟩
                · left; omega
                · right; exact ⟨by omega, ih bs cs hr1 hr2⟩

theorem strLe_total (a b : String) : strLe a b = true ∨ strLe b a = true :=
  lexLe_total a.data b.data

theorem strLe_trans {a b c : String} (h1 : strLe a b = true) (h2 : strLe b c = true) :
    strLe a c = true :=
  lexLe_trans a.data b.data c.data h1 h2

theorem insertByName_perm (a : ActionDecl) :
    ∀ l : List ActionDecl, (insertByName a l).Perm (a :: l) := by
  intro l
  induction l with
  | nil => exact List.Perm.refl _
  | cons b bs ih =>
      unfold insertByName
      by_cases h : strLe a.name b.name = true
      · rw [if_pos h]
      · rw [if_neg h]
        exact (ih.cons b).trans (List.Perm.swap a b bs)

theorem pairwise_insertByName (a : ActionDecl) :
    ∀ {l : List ActionDecl},
      List.Pairwise (fun x y : ActionDecl => strLe x.name y.name = true) l →
      List.Pairwise (fun x y : ActionDecl => strLe x.name y.name = true)
        (insertByName a l) := by
  intro l
  induction l with
  | nil => intro _; exact List.pairwise_singleton _ a
  | cons b bs ih =>
      intro hp
      rw [List.pairwise_cons] at hp
      obtain ⟨hb, hbs⟩ := hp
      unfold insertByName
      by_cases h : strLe a.name b.name = true
      · rw [if_pos h]
        rw [List.pairwise_cons]
        refine ⟨?_, List.pairwise_cons.mpr ⟨hb, hbs⟩⟩
        intro x hx
        rcases List.mem_cons.mp hx with hx | hx
        · rw [hx]; exact h
        · exact strLe_trans h (hb x hx)
      · rw [if_neg h]
        rw [List.pairwise_cons]
        refine ⟨?_, ih hbs⟩
        intro x hx
        rcases List.mem_cons.mp ((insertByName_perm a bs).mem_iff.mp hx) with hx | hx
        · rw [hx]
          rcases strLe_total a.name b.name with h2 | h2
          · exact absurd h2 h
          · exact h2
        · exact hb x hx

theorem sortByName_sorted : ∀ l : List ActionDecl,
    List.Pairwise (fun x y : ActionDecl => strLe x.name y.name = true) (sortByName l) := by
  intro l
  induction l with
  | nil => exact List.Pairwise.nil
  | cons a rest ih => exact pairwise_insertByName a ih

theorem sortByName_perm : ∀ l : List ActionDecl, (sortByName l).Perm l := by
  intro l
  induction l with
  | nil => exact List.Perm.refl _
  | cons a rest ih => exact (insertByName_perm a (sortByName rest)).trans (ih.cons a)

/-- C7 counterexample: a class declaring `zebra` before `apple` (both initial) gets
its action methods back in the order `apple`, `zebra` — the registry does not follow
declaration order. -/
theorem C7_counterexample :
    get_action_methods
        ⟨7, [⟨"zebra", ActionType.initial, 0⟩, ⟨"apple", ActionType.initial, 0⟩],
          some (fun _ => true), [1]⟩ ActionType.initial ≠
      List.filter (fun a => a.actionType == ActionType.initial)
        [⟨"zebra", ActionType.initial, 0⟩, ⟨"apple", ActionType.initial, 0⟩] := by
  decide

/-- C7 amended: for every condition class and trigger class the registry returns the
tagged methods in a stable, deterministic order — sorted alphabetically by method
name (the order `inspect.getmembers` yields), not in declaration order — and the
returned methods are exactly the declared methods of that trigger. -/
theorem C7_get_action_methods_alphabetical (cls : CondClass) (t : ActionType) :
    List.Pairwise (fun a b : ActionDecl => strLe a.name b.name = true)
      (get_action_methods cls t) ∧
    (get_action_methods cls t).Perm
      (cls.declarations.filter (fun a => a.actionType == t)) := by
  constructor
  · exact List.Pairwise.sublist (List.filter_sublist _) (sortByName_sorted cls.declarations)
  · exact (sortByName_perm cls.declarations).filter _

theorem processClass_error_of_no_existsWhen {bad : CondClass} (h : bad.existsWhen = none)
    (ex : Bool) (now : Nat) (db : DBState) : processClass bad ex now db = Except.error () := by
  unfold processClass create_all_conditions to_be_created get_query_set
  rw [h]

theorem processClass_ok_of_existsWhen {cls : CondClass} {p : Nat → Bool}
    (h : cls.existsWhen = some p) (ex : Bool) (now : Nat) (db : DBState) :
    ∃ s, processClass cls ex now db = Except.ok s := by
  unfold processClass create_all_conditions end_all_conditions execute_all_delayed
    execute_all_recurring to_be_created to_be_ended get_query_set
  rw [h]
  cases ex with
  | false => exact ⟨_, rfl⟩
  | true => exact ⟨_, rfl⟩

/-- C8 counterexample: with a class lacking `exists_when` first in the run, `handle`
aborts — the failure flag is raised and the well-configured second class is not
processed (its due condition is not created), although processing it alone would
create one.  This refutes "the driving operation still processes every other
condition class in the same run". -/
theorem C8_counterexample :
    handleClasses [⟨9, [], none, [5]⟩,
        ⟨7, [⟨"hello", ActionType.initial, 0⟩], some (fun _ => true), [1]⟩]
      true 0 ⟨[], [], 0⟩ = (⟨[], [], 0⟩, [], false) ∧
    (handleClasses [⟨7, [⟨"hello", ActionType.initial, 0⟩], some (fun _ => true), [1]⟩]
      true 0 ⟨[], [], 0⟩).1.conditions ≠ [] := by
  constructor
  · rfl
  · decide

/-- C8 amended: when one condition class lacks a predicate (no `exists_when`), the
missing-predicate error propagates uncaught out of the management command's loop:
classes processed before the faulty one keep their effects, but the faulty class and
every class after it are not processed, and the run reports failure. -/
theorem C8_missing_predicate_aborts_run (pre : List CondClass) (bad : CondClass)
    (rest : List CondClass) (execute : Bool) (now : Nat)
    (hpre : ∀ cls ∈ pre, ∃ p, cls.existsWhen = some p)
    (hbad : bad.existsWhen = none) :
    ∀ db : DBState, handleClasses (pre ++ bad :: rest) execute now db =
      ((handleClasses pre execute now db).1,
       (handleClasses pre execute now db).2.1, false) := by
  induction pre with
  | nil =>
      intro db
      simp only [List.nil_append, handleClasses,
        processClass_error_of_no_existsWhen hbad execute now db]
  | cons cls pre' ih =>
      intro db
      obtain ⟨p, hp⟩ := hpre cls (List.mem_cons_self cls pre')
      obtain ⟨s, hs⟩ := processClass_ok_of_existsWhen hp execute now db
      have ih' := ih (fun c hc => hpre c (List.mem_cons_of_mem cls hc))
      simp only [List.cons_append, handleClasses, hs]
      have hax : List.append pre' (bad :: rest) = pre' ++ bad :: rest := rfl
      rw [hax, ih' s.1]

theorem C8_witness :
    (∀ cls ∈ [(⟨7, [⟨"hello", ActionType.initial, 0⟩], some (fun _ => true), [1]⟩ : CondClass)],
      ∃ p, cls.existsWhen = some p) ∧
    (⟨9, [], none, [5]⟩ : CondClass).existsWhen = none ∧
    handleClasses
        ([⟨7, [⟨"hello", ActionType.initial, 0⟩], some (fun _ => true), [1]⟩] ++
          (⟨9, [], none, [5]⟩ : CondClass) :: [⟨8, [], some (fun _ => true), [2]⟩])
        true 0 ⟨[], [], 0⟩ =
      ((handleClasses [⟨7, [⟨"hello", ActionType.initial, 0⟩], some (fun _ => true), [1]⟩]
          true 0 ⟨[], [], 0⟩).1,
       (handleClasses [⟨7, [⟨"hello", ActionType.initial, 0⟩], some (fun _ => true), [1]⟩]
          true 0 ⟨[], [], 0⟩).2.1, false) :=
  have hpre : ∀ cls ∈ [(⟨7, [⟨"hello", ActionType.initial, 0⟩], some (fun _ => true), [1]⟩ :
      CondClass)], ∃ p, cls.existsWhen = some p := by
    intro cls hcls
    simp only [List.mem_singleton] at hcls
    subst hcls
    exact ⟨_, rfl⟩
  ⟨hpre, rfl,
   C8_missing_predicate_aborts_run _ _ _ true 0 hpre rfl ⟨[], [], 0⟩⟩

theorem get_or_create_actions (ct pk now : Nat) (db : DBState) :
    (get_or_create_condition ct pk now db).2.actions = db.actions := by
  unfold get_or_create_condition
  cases findOpenCondition db ct pk <;> rfl

/-- The execute loop only appends to the action table. -/
theorem runActions_actions_extends (t : ActionType) (ct pk now : Nat)
    (decls : List ActionDecl) (db : DBState) :
    ∃ l, (runActions t ct pk now decls db).1.actions = db.actions ++ l := by
  induction decls generalizing db with
  | nil => exact ⟨[], (List.append_nil _).symm⟩
  | cons a rest ih =>
      unfold runActions
      simp only
      obtain ⟨l, hl⟩ := ih (createAction (get_or_create_condition ct pk now db).2
        (get_or_create_condition ct pk now db).1.id t a.name now)
      refine ⟨⟨(get_or_create_condition ct pk now db).1.id, t, a.name, now⟩ :: l, ?_⟩
      rw [hl, createAction_actions, get_or_create_actions, List.append_assoc]
      rfl

/-- In every trace the execute loop emits, each invocation is preceded by the
insertion of its own record. -/
theorem runActions_recordBeforeInvoke (t : ActionType) (ct pk now : Nat)
    (decls : List ActionDecl) (db : DBState) :
    recordBeforeInvoke (runActions t ct pk now decls db).2 := by
  induction decls generalizing db with
  | nil => intro i cid ty name hi; simp [runActions] at hi
  | cons a rest ih =>
      intro i cid ty name hi
      unfold runActions at hi
      simp only at hi
      match i, hi with
      | 0, hi => simp at hi
      | 1, hi =>
          refine ⟨0, Nat.zero_lt_one, ?_⟩
          simp only [List.getElem?_cons_succ, List.getElem?_cons_zero,
            Option.some_inj] at hi ⊢
          unfold runActions
          simp only [List.getElem?_cons_zero]
          injection hi with h1 h2 h3
          rw [← h1, ← h2, ← h3]
      | Nat.succ (Nat.succ n), hi =>
          simp only [List.getElem?_cons_succ] at hi
          obtain ⟨j, hj, hrec⟩ := ih _ n cid ty name hi
          refine ⟨j + 2, by omega, ?_⟩
          unfold runActions
          simp only [List.getElem?_cons_succ]
          exact hrec

/-- Every invocation the execute loop emits has its row in the resulting table. -/
theorem runActions_invoke_recorded (t : ActionType) (ct pk now : Nat)
    (decls : List ActionDecl) (db : DBState) :
    ∀ cid ty name, Event.invoke cid ty name ∈ (runActions t ct pk now decls db).2 →
      (⟨cid, ty, name, now⟩ : ActionRec) ∈ (runActions t ct pk now decls db).1.actions := by
  induction decls generalizing db with
  | nil => intro cid ty name h; simp [runActions] at h
  | cons a rest ih =>
      intro cid ty name h
      unfold runActions at h ⊢
      simp only [List.mem_cons] at h
      simp only
      rcases h with h | h | h
      · exact absurd h (by simp)
      · obtain ⟨l, hl⟩ := runActions_actions_extends t ct pk now rest
          (createAction (get_or_create_condition ct pk now db).2
            (get_or_create_condition ct pk now db).1.id t a.name now)
        rw [hl, createAction_actions]
        injection h with h1 h2 h3
        rw [← h1, ← h2, ← h3]
        simp
      · exact ih _ cid ty name h

/-- C5: for all four trigger classes, the `Action` row insert strictly precedes the
action invocation in the pass's event order, and every completed invocation has its
record present in the resulting state — there is never an invocation without its
record. -/
theorem C5_record_precedes_invoke (cls : CondClass) (pk now : Nat) (db : DBState) :
    (recordBeforeInvoke (execute_initial_actions cls pk now db).2 ∧
      ∀ cid ty name, Event.invoke cid ty name ∈ (execute_initial_actions cls pk now db).2 →
        ∃ r ∈ (execute_initial_actions cls pk now db).1.actions,
          r.conditionId = cid ∧ r.actionType = ty ∧ r.name = name) ∧
    (recordBeforeInvoke (execute_delayed_actions cls pk now db).2 ∧
      ∀ cid ty name, Event.invoke cid ty name ∈ (execute_delayed_actions cls pk now db).2 →
        ∃ r ∈ (execute_delayed_actions cls pk now db).1.actions,
          r.conditionId = cid ∧ r.actionType = ty ∧ r.name = name) ∧
    (recordBeforeInvoke (execute_recurring_actions cls pk now db).2 ∧
      ∀ cid ty name, Event.invoke cid ty name ∈ (execute_recurring_actions cls pk now db).2 →
        ∃ r ∈ (execute_recurring_actions cls pk now db).1.actions,
          r.conditionId = cid ∧ r.actionType = ty ∧ r.name = name) ∧
    (recordBeforeInvoke (execute_ending_actions cls pk now db).2 ∧
      ∀ cid ty name, Event.invoke cid ty name ∈ (execute_ending_actions cls pk now db).2 →
        ∃ r ∈ (execute_ending_actions cls pk now db).1.actions,
          r.conditionId = cid ∧ r.actionType = ty ∧ r.name = name) := by
  refine ⟨⟨?_, ?_⟩, ⟨?_, ?_⟩, ⟨?_, ?_⟩, ⟨?_, ?_⟩⟩
  · exact runActions_recordBeforeInvoke ActionType.initial cls.ct pk now
      (get_action_methods cls ActionType.initial) db
  · intro cid ty name h
    exact ⟨⟨cid, ty, name, now⟩,
      runActions_invoke_recorded ActionType.initial cls.ct pk now
        (get_action_methods cls ActionType.initial) db cid ty name h, rfl, rfl, rfl⟩
  · exact runActions_recordBeforeInvoke ActionType.delayed cls.ct pk now
      (get_triggered_delayed_actions cls pk now db).1
      (get_triggered_delayed_actions cls pk now db).2
  · intro cid ty name h
    exact ⟨⟨cid, ty, name, now⟩,
      runActions_invoke_recorded ActionType.delayed cls.ct pk now
        (get_triggered_delayed_actions cls pk now db).1
        (get_triggered_delayed_actions cls pk now db).2 cid ty name h, rfl, rfl, rfl⟩
  · exact runActions_recordBeforeInvoke ActionType.recurring cls.ct pk now
      (get_triggered_recurring_actions cls pk now db).1
      (get_triggered_recurring_actions cls pk now db).2
  · intro cid ty name h
    exact ⟨⟨cid, ty, name, now⟩,
      runActions_invoke_recorded ActionType.recurring cls.ct pk now
        (get_triggered_recurring_actions cls pk now db).1
        (get_triggered_recurring_actions cls pk now db).2 cid ty name h, rfl, rfl, rfl⟩
  · exact runActions_recordBeforeInvoke ActionType.ending cls.ct pk now
      (get_action_methods cls ActionType.ending) db
  · intro cid ty name h
    exact ⟨⟨cid, ty, name, now⟩,
      runActions_invoke_recorded ActionType.ending cls.ct pk now
        (get_action_methods cls ActionType.ending) db cid ty name h, rfl, rfl, rfl⟩

theorem C5_witness :
    Event.invoke 0 ActionType.initial "hello" ∈
      (execute_initial_actions
        ⟨7, [⟨"hello", ActionType.initial, 0⟩], some (fun _ => true), [1]⟩ 1 5
        ⟨[⟨0, 7, 1, 2, none⟩], [], 1⟩).2 ∧
    ∃ r ∈ (execute_initial_actions
        ⟨7, [⟨"hello", ActionType.initial, 0⟩], some (fun _ => true), [1]⟩ 1 5
        ⟨[⟨0, 7, 1, 2, none⟩], [], 1⟩).1.actions,
      r.conditionId = 0 ∧ r.actionType = ActionType.initial ∧ r.name = "hello" :=
  ⟨by decide,
   (C5_record_precedes_invoke
      ⟨7, [⟨"hello", ActionType.initial, 0⟩], some (fun _ => true), [1]⟩ 1 5
      ⟨[⟨0, 7, 1, 2, none⟩], [], 1⟩).1.2 0 ActionType.initial "hello" (by decide)⟩

theorem nodup_names_methods (cls : CondClass) (t : ActionType)
    (hnd : (cls.declarations.map (fun d => d.name)).Nodup) :
    ((get_action_methods cls t).map (fun d => d.name)).Nodup := by
  have hperm := (sortByName_perm cls.declarations).map (fun d => d.name)
  have hsorted : ((sortByName cls.declarations).map (fun d => d.name)).Nodup :=
    hperm.symm.nodup hnd
  exact List.Nodup.sublist (List.Sublist.map _ (List.filter_sublist _)) hsorted

theorem count_name_eq_one :
    ∀ {l : List ActionDecl}, (l.map (fun d => d.name)).Nodup →
      ∀ {a : ActionDecl}, a ∈ l → (l.filter (fun b => b.name == a.name)).length = 1 := by
  intro l
  induction l with
  | nil => intro _ a ha; simp at ha
  | cons x xs ih =>
      intro hnd a ha
      simp only [List.map_cons, List.nodup_cons] at hnd
      rw [List.filter_cons]
      rcases List.mem_cons.mp ha with he | ha'
      · subst he
        rw [if_pos (by simp)]
        have hnil : xs.filter (fun b => b.name == a.name) = [] := by
          rw [List.filter_eq_nil_iff]
          intro b hb hbn
          simp only [beq_iff_eq] at hbn
          exact hnd.1 (hbn ▸ List.mem_map_of_mem _ hb)
        rw [hnil]
        rfl
      · have hxa : ¬(x.name == a.name) = true := by
          simp only [beq_iff_eq]
          intro he
          exact hnd.1 (he.symm ▸ List.mem_map_of_mem _ ha')
        rw [if_neg hxa]
        exact ih hnd.2 ha'

theorem filter_name_nil {methods : List ActionDecl}
    (hnd : (methods.map (fun d => d.name)).Nodup) {sub : List ActionDecl}
    (hsub : ∀ b ∈ sub, b ∈ methods) {a : ActionDecl} (ha : a ∈ methods)
    (hna : a ∉ sub) : sub.filter (fun b => b.name == a.name) = [] := by
  rw [List.filter_eq_nil_iff]
  intro b hb hbn
  simp only [beq_iff_eq] at hbn
  have hba : b = a := List.inj_on_of_nodup_map hnd (hsub b hb) ha hbn
  exact hna (hba ▸ hb)

/-- Counting the rows one execute loop appends for a given name. -/
theorem count_appended (c : Condition) (t : ActionType) (now : Nat)
    (decls : List ActionDecl) (nm : String) :
    ((decls.map (rowOf c.id t now)).filter
        (fun r => r.conditionId == c.id && r.actionType == t && r.name == nm)).length =
      (decls.filter (fun b => b.name == nm)).length := by
  rw [List.filter_map, List.length_map]
  congr 1
  apply List.filter_congr
  intro a _
  simp [Function.comp, rowOf]

theorem invoke_mem_pairedEvents (cid : Nat) (t : ActionType) :
    ∀ {l : List ActionDecl} {a : ActionDecl}, a ∈ l →
      Event.invoke cid t a.name ∈ pairedEvents cid t l := by
  intro l
  induction l with
  | nil => intro a ha; simp at ha
  | cons x xs ih =>
      intro a ha
      unfold pairedEvents
      rcases List.mem_cons.mp ha with he | ha'
      · subst he
        simp
      · simp only [List.mem_cons]
        exact Or.inr (Or.inr (ih ha'))

/-- C10: `execute_initial_actions` performs no ledger check — with the open condition
in place, each call unconditionally appends one INITIAL row per `initial`-tagged
method and invokes it, regardless of existing rows; calling it (or
`create_condition`, which is identical once the condition exists) twice duplicates
every row and re-runs every action; the once-only guarantee rests on `to_be_created`
excluding subjects that already have an open condition. -/
theorem C10_execute_initial_unconditional (cls : CondClass) (pk now now2 : Nat)
    (db : DBState) (c : Condition)
    (hc : findOpenCondition db cls.ct pk = some c) :
    (execute_initial_actions cls pk now db).1.actions =
      db.actions ++
        (get_action_methods cls ActionType.initial).map (rowOf c.id ActionType.initial now) ∧
    (execute_initial_actions cls pk now db).2 =
      pairedEvents c.id ActionType.initial (get_action_methods cls ActionType.initial) ∧
    (execute_initial_actions cls pk now2
        (execute_initial_actions cls pk now db).1).1.actions =
      db.actions ++
        (get_action_methods cls ActionType.initial).map (rowOf c.id ActionType.initial now) ++
        (get_action_methods cls ActionType.initial).map (rowOf c.id ActionType.initial now2) ∧
    (execute_initial_actions cls pk now2
        (execute_initial_actions cls pk now db).1).2 =
      pairedEvents c.id ActionType.initial (get_action_methods cls ActionType.initial) ∧
    create_condition cls pk true now db = execute_initial_actions cls pk now db ∧
    (∀ p l, cls.existsWhen = some p → to_be_created cls db = Except.ok l → pk ∉ l) := by
  have he : execute_initial_actions cls pk now db =
      ({ db with actions := db.actions ++
          (get_action_methods cls ActionType.initial).map (rowOf c.id ActionType.initial now) },
       pairedEvents c.id ActionType.initial (get_action_methods cls ActionType.initial)) := by
    unfold execute_initial_actions
    exact runActions_spec ActionType.initial now _ hc
  have hc2 : findOpenCondition (execute_initial_actions cls pk now db).1 cls.ct pk = some c := by
    rw [he]
    exact (findOpen_eq_of_conditions rfl cls.ct pk).trans hc
  have he2 : execute_initial_actions cls pk now2 (execute_initial_actions cls pk now db).1 =
      ({ db with actions := db.actions ++
          (get_action_methods cls ActionType.initial).map (rowOf c.id ActionType.initial now) ++
          (get_action_methods cls ActionType.initial).map (rowOf c.id ActionType.initial now2) },
       pairedEvents c.id ActionType.initial (get_action_methods cls ActionType.initial)) := by
    have hr := runActions_spec ActionType.initial now2
      (get_action_methods cls ActionType.initial) hc2
    have he' := he
    unfold execute_initial_actions at hr he' ⊢
    rw [hr, he']
  refine ⟨by rw [he], by rw [he], by rw [he2], by rw [he2], ?_, ?_⟩
  · unfold create_condition
    dsimp only
    rw [get_or_create_found now hc]
    rfl
  · intro p l hp hl hmem
    simp only [to_be_created, get_query_set, Except.ok.injEq, hp] at hl
    subst hl
    simp only [List.mem_filter, Bool.not_eq_eq_eq_not, Bool.not_true] at hmem
    have hin : pk ∈ get_ids_with_conditions cls db :=
      (mem_ids_iff cls db pk).mpr (by rw [hc]; rfl)
    have hnotin : pk ∉ get_ids_with_conditions cls db := by
      have h2 := hmem.2
      simpa using h2
    exact hnotin hin

theorem C10_witness :
    findOpenCondition ⟨[⟨0, 7, 1, 2, none⟩], [], 1⟩
      (⟨7, [⟨"hello", ActionType.initial, 0⟩], some (fun _ => true), [1]⟩ : CondClass).ct 1 =
      some ⟨0, 7, 1, 2, none⟩ ∧
    ((execute_initial_actions ⟨7, [⟨"hello", ActionType.initial, 0⟩], some (fun _ => true), [1]⟩
        1 5 ⟨[⟨0, 7, 1, 2, none⟩], [], 1⟩).1.actions =
      [] ++ (get_action_methods
          ⟨7, [⟨"hello", ActionType.initial, 0⟩], some (fun _ => true), [1]⟩
          ActionType.initial).map (rowOf 0 ActionType.initial 5) ∧
    (execute_initial_actions ⟨7, [⟨"hello", ActionType.initial, 0⟩], some (fun _ => true), [1]⟩
        1 5 ⟨[⟨0, 7, 1, 2, none⟩], [], 1⟩).2 =
      pairedEvents 0 ActionType.initial (get_action_methods
        ⟨7, [⟨"hello", ActionType.initial, 0⟩], some (fun _ => true), [1]⟩ ActionType.initial) ∧
    (execute_initial_actions ⟨7, [⟨"hello", ActionType.initial, 0⟩], some (fun _ => true), [1]⟩
        1 6 (execute_initial_actions
          ⟨7, [⟨"hello", ActionType.initial, 0⟩], some (fun _ => true), [1]⟩
          1 5 ⟨[⟨0, 7, 1, 2, none⟩], [], 1⟩).1).1.actions =
      [] ++ (get_action_methods
          ⟨7, [⟨"hello", ActionType.initial, 0⟩], some (fun _ => true), [1]⟩
          ActionType.initial).map (rowOf 0 ActionType.initial 5) ++
        (get_action_methods
          ⟨7, [⟨"hello", ActionType.initial, 0⟩], some (fun _ => true), [1]⟩
          ActionType.initial).map (rowOf 0 ActionType.initial 6) ∧
    (execute_initial_actions ⟨7, [⟨"hello", ActionType.initial, 0⟩], some (fun _ => true), [1]⟩
        1 6 (execute_initial_actions
          ⟨7, [⟨"hello", ActionType.initial, 0⟩], some (fun _ => true), [1]⟩
          1 5 ⟨[⟨0, 7, 1, 2, none⟩], [], 1⟩).1).2 =
      pairedEvents 0 ActionType.initial (get_action_methods
        ⟨7, [⟨"hello", ActionType.initial, 0⟩], some (fun _ => true), [1]⟩ ActionType.initial) ∧
    create_condition ⟨7, [⟨"hello", ActionType.initial, 0⟩], some (fun _ => true), [1]⟩
        1 true 5 ⟨[⟨0, 7, 1, 2, none⟩], [], 1⟩ =
      execute_initial_actions ⟨7, [⟨"hello", ActionType.initial, 0⟩], some (fun _ => true), [1]⟩
        1 5 ⟨[⟨0, 7, 1, 2, none⟩], [], 1⟩ ∧
    (∀ p l, (⟨7, [⟨"hello", ActionType.initial, 0⟩], some (fun _ => true), [1]⟩ :
        CondClass).existsWhen = some p →
      to_be_created ⟨7, [⟨"hello", ActionType.initial, 0⟩], some (fun _ => true), [1]⟩
        ⟨[⟨0, 7, 1, 2, none⟩], [], 1⟩ = Except.ok l → 1 ∉ l)) :=
  ⟨by decide,
   C10_execute_initial_unconditional
     ⟨7, [⟨"hello", ActionType.initial, 0⟩], some (fun _ => true), [1]⟩ 1 5 6
     ⟨[⟨0, 7, 1, 2, none⟩], [], 1⟩ ⟨0, 7, 1, 2, none⟩ (by decide)⟩

/-- C1: for an open condition and a `delayed(Δ)` method, the method is triggered in a
pass iff no DELAYED row exists for `(condition, name)` and `now ≥ created + Δ`; a
triggered pass records exactly one DELAYED row for the pair and invokes the method; a
pass that does not trigger it records nothing for the pair; and once executed the
method is never triggered again in any later pass over the resulting state. -/
theorem C1_delayed_fires_exactly_once (cls : CondClass) (pk now : Nat) (db : DBState)
    (a : ActionDecl) (c : Condition)
    (hc : findOpenCondition db cls.ct pk = some c)
    (ha : a ∈ get_action_methods cls ActionType.delayed)
    (hnd : (cls.declarations.map (fun d => d.name)).Nodup) :
    (a ∈ (get_triggered_delayed_actions cls pk now db).1 ↔
      countRecords db c.id ActionType.delayed a.name = 0 ∧ c.created + a.delta ≤ now) ∧
    (a ∈ (get_triggered_delayed_actions cls pk now db).1 →
      countRecords (execute_delayed_actions cls pk now db).1 c.id ActionType.delayed a.name
        = 1 ∧
      Event.invoke c.id ActionType.delayed a.name ∈ (execute_delayed_actions cls pk now db).2) ∧
    (a ∉ (get_triggered_delayed_actions cls pk now db).1 →
      countRecords (execute_delayed_actions cls pk now db).1 c.id ActionType.delayed a.name =
        countRecords db c.id ActionType.delayed a.name) ∧
    (a ∈ (get_triggered_delayed_actions cls pk now db).1 → ∀ now2,
      a ∉ (get_triggered_delayed_actions cls pk now2 (execute_delayed_actions cls pk now db).1).1) := by
  have htrig : get_triggered_delayed_actions cls pk now db =
      ((get_action_methods cls ActionType.delayed).filter (fun b =>
        countRecords db c.id ActionType.delayed b.name == 0 &&
        decide (c.created + b.delta ≤ now)), db) := by
    unfold get_triggered_delayed_actions
    rw [get_or_create_found now hc]
  have hexec : execute_delayed_actions cls pk now db =
      ({ db with actions := db.actions ++
          ((get_action_methods cls ActionType.delayed).filter (fun b =>
            countRecords db c.id ActionType.delayed b.name == 0 &&
            decide (c.created + b.delta ≤ now))).map (rowOf c.id ActionType.delayed now) },
       pairedEvents c.id ActionType.delayed
         ((get_action_methods cls ActionType.delayed).filter (fun b =>
           countRecords db c.id ActionType.delayed b.name == 0 &&
           decide (c.created + b.delta ≤ now)))) := by
    unfold execute_delayed_actions
    rw [htrig]
    exact runActions_spec ActionType.delayed now _ hc
  have hmem_iff : a ∈ (get_triggered_delayed_actions cls pk now db).1 ↔
      countRecords db c.id ActionType.delayed a.name = 0 ∧ c.created + a.delta ≤ now := by
    rw [htrig]
    simp only [List.mem_filter, Bool.and_eq_true, beq_iff_eq, decide_eq_true_eq]
    constructor
    · rintro ⟨-, h1, h2⟩
      exact ⟨h1, h2⟩
    · rintro ⟨h1, h2⟩
      exact ⟨ha, h1, h2⟩
  have hcount : ∀ nm : String,
      countRecords (execute_delayed_actions cls pk now db).1 c.id ActionType.delayed nm =
        countRecords db c.id ActionType.delayed nm +
          (((get_action_methods cls ActionType.delayed).filter (fun b =>
            countRecords db c.id ActionType.delayed b.name == 0 &&
            decide (c.created + b.delta ≤ now))).filter (fun b => b.name == nm)).length := by
    intro nm
    rw [hexec]
    unfold countRecords recordsFor
    dsimp only
    rw [List.filter_append, List.length_append, count_appended]
  have hnodm := nodup_names_methods cls ActionType.delayed hnd
  have hnodtrig : (((get_action_methods cls ActionType.delayed).filter (fun b =>
      countRecords db c.id ActionType.delayed b.name == 0 &&
      decide (c.created + b.delta ≤ now))).map (fun d => d.name)).Nodup :=
    List.Nodup.sublist (List.Sublist.map _ (List.filter_sublist _)) hnodm
  have hone : a ∈ (get_triggered_delayed_actions cls pk now db).1 →
      countRecords (execute_delayed_actions cls pk now db).1 c.id ActionType.delayed a.name
        = 1 := by
    intro hmemA
    have h0 := (hmem_iff.mp hmemA).1
    have hmt : a ∈ (get_action_methods cls ActionType.delayed).filter (fun b =>
        countRecords db c.id ActionType.delayed b.name == 0 &&
        decide (c.created + b.delta ≤ now)) := by
      rw [htrig] at hmemA
      exact hmemA
    rw [hcount a.name, h0, count_name_eq_one hnodtrig hmt]
  refine ⟨hmem_iff, ?_, ?_, ?_⟩
  · intro hmemA
    refine ⟨hone hmemA, ?_⟩
    have hmt : a ∈ (get_action_methods cls ActionType.delayed).filter (fun b =>
        countRecords db c.id ActionType.delayed b.name == 0 &&
        decide (c.created + b.delta ≤ now)) := by
      rw [htrig] at hmemA
      exact hmemA
    rw [hexec]
    exact invoke_mem_pairedEvents c.id ActionType.delayed hmt
  · intro hnA
    have hnt : a ∉ (get_action_methods cls ActionType.delayed).filter (fun b =>
        countRecords db c.id ActionType.delayed b.name == 0 &&
        decide (c.created + b.delta ≤ now)) := by
      intro hmt
      apply hnA
      rw [htrig]
      exact hmt
    rw [hcount a.name,
      filter_name_nil hnodm (fun b hb => (List.mem_filter.mp hb).1) ha hnt]
    rfl
  · intro hmemA now2 hcontra
    have h1 := hone hmemA
    have hc2 : findOpenCondition (execute_delayed_actions cls pk now db).1 cls.ct pk =
        some c := by
      rw [hexec]
      exact (findOpen_eq_of_conditions rfl cls.ct pk).trans hc
    have htrig2 : get_triggered_delayed_actions cls pk now2
        (execute_delayed_actions cls pk now db).1 =
        ((get_action_methods cls ActionType.delayed).filter (fun b =>
          countRecords (execute_delayed_actions cls pk now db).1 c.id
            ActionType.delayed b.name == 0 &&
          decide (c.created + b.delta ≤ now2)),
         (execute_delayed_actions cls pk now db).1) := by
      unfold get_triggered_delayed_actions
      rw [get_or_create_found now2 hc2]
    rw [htrig2] at hcontra
    have hpred := (List.mem_filter.mp hcontra).2
    simp only [Bool.and_eq_true, beq_iff_eq] at hpred
    rw [h1] at hpred
    exact absurd hpred.1 (by omega)

theorem C1_witness :
    findOpenCondition ⟨[⟨0, 7, 1, 100, none⟩], [], 1⟩
      (⟨7, [⟨"late", ActionType.delayed, 30⟩], some (fun _ => true), [1]⟩ : CondClass).ct 1 =
      some ⟨0, 7, 1, 100, none⟩ ∧
    (⟨"late", ActionType.delayed, 30⟩ : ActionDecl) ∈ get_action_methods
      ⟨7, [⟨"late", ActionType.delayed, 30⟩], some (fun _ => true), [1]⟩ ActionType.delayed ∧
    ((⟨7, [⟨"late", ActionType.delayed, 30⟩], some (fun _ => true), [1]⟩ :
      CondClass).declarations.map (fun d => d.name)).Nodup ∧
    (((⟨"late", ActionType.delayed, 30⟩ : ActionDecl) ∈ (get_triggered_delayed_actions
        ⟨7, [⟨"late", ActionType.delayed, 30⟩], some (fun _ => true), [1]⟩ 1 130
        ⟨[⟨0, 7, 1, 100, none⟩], [], 1⟩).1 ↔
      countRecords ⟨[⟨0, 7, 1, 100, none⟩], [], 1⟩ 0 ActionType.delayed "late" = 0 ∧
        100 + 30 ≤ 130) ∧
    ((⟨"late", ActionType.delayed, 30⟩ : ActionDecl) ∈ (get_triggered_delayed_actions
        ⟨7, [⟨"late", ActionType.delayed, 30⟩], some (fun _ => true), [1]⟩ 1 130
        ⟨[⟨0, 7, 1, 100, none⟩], [], 1⟩).1 →
      countRecords (execute_delayed_actions
          ⟨7, [⟨"late", ActionType.delayed, 30⟩], some (fun _ => true), [1]⟩ 1 130
          ⟨[⟨0, 7, 1, 100, none⟩], [], 1⟩).1 0 ActionType.delayed "late" = 1 ∧
      Event.invoke 0 ActionType.delayed "late" ∈ (execute_delayed_actions
        ⟨7, [⟨"late", ActionType.delayed, 30⟩], some (fun _ => true), [1]⟩ 1 130
        ⟨[⟨0, 7, 1, 100, none⟩], [], 1⟩).2) ∧
    ((⟨"late", ActionType.delayed, 30⟩ : ActionDecl) ∉ (get_triggered_delayed_actions
        ⟨7, [⟨"late", ActionType.delayed, 30⟩], some (fun _ => true), [1]⟩ 1 130
        ⟨[⟨0, 7, 1, 100, none⟩], [], 1⟩).1 →
      countRecords (execute_delayed_actions
          ⟨7, [⟨"late", ActionType.delayed, 30⟩], some (fun _ => true), [1]⟩ 1 130
          ⟨[⟨0, 7, 1, 100, none⟩], [], 1⟩).1 0 ActionType.delayed "late" =
        countRecords ⟨[⟨0, 7, 1, 100, none⟩], [], 1⟩ 0 ActionType.delayed "late") ∧
    ((⟨"late", ActionType.delayed, 30⟩ : ActionDecl) ∈ (get_triggered_delayed_actions
        ⟨7, [⟨"late", ActionType.delayed, 30⟩], some (fun _ => true), [1]⟩ 1 130
        ⟨[⟨0, 7, 1, 100, none⟩], [], 1⟩).1 → ∀ now2,
      (⟨"late", ActionType.delayed, 30⟩ : ActionDecl) ∉ (get_triggered_delayed_actions
        ⟨7, [⟨"late", ActionType.delayed, 30⟩], some (fun _ => true), [1]⟩ 1 now2
        (execute_delayed_actions
          ⟨7, [⟨"late", ActionType.delayed, 30⟩], some (fun _ => true), [1]⟩ 1 130
          ⟨[⟨0, 7, 1, 100, none⟩], [], 1⟩).1).1)) :=
  ⟨by decide, by decide, by decide,
   C1_delayed_fires_exactly_once
     ⟨7, [⟨"late", ActionType.delayed, 30⟩], some (fun _ => true), [1]⟩ 1 130
     ⟨[⟨0, 7, 1, 100, none⟩], [], 1⟩ ⟨"late", ActionType.delayed, 30⟩ ⟨0, 7, 1, 100, none⟩
     (by decide) (by decide) (by decide)⟩

theorem filter_rows_by_name (cid : Nat) (t : ActionType) (now : Nat) (nm : String) :
    ∀ decls : List ActionDecl,
      (decls.map (rowOf cid t now)).filter
        (fun r => r.conditionId == cid && r.actionType == t && r.name == nm) =
      (decls.filter (fun b => b.name == nm)).map (rowOf cid t now) := by
  intro decls
  induction decls with
  | nil => rfl
  | cons x xs ih =>
      simp only [List.map_cons, List.filter_cons]
      have hpred : ((rowOf cid t now x).conditionId == cid &&
          (rowOf cid t now x).actionType == t && (rowOf cid t now x).name == nm) =
          (x.name == nm) := by
        simp [rowOf]
      rw [hpred]
      by_cases h : (x.name == nm) = true
      · rw [if_pos h, if_pos h, List.map_cons, ih]
      · rw [if_neg h, if_neg h, ih]

theorem latest_executed_append (l : List ActionRec) (r : ActionRec) :
    latest_executed (l ++ [r]) = max (latest_executed l) r.executed := by
  unfold latest_executed
  rw [List.foldl_append]
  rfl

/-- C2: for an open condition and a `recurring(Δ)` method, a firing is due in a pass
iff `now ≥ baseline + Δ`, where the baseline is the `executed` timestamp of the
latest RECURRING row for `(condition, name)` when one exists and the condition's
`created` otherwise; with no prior row the first firing needs `now ≥ created + Δ`; a
pass produces exactly one firing; and after firing at `now`, any pass that triggers
the method again runs at `now2 ≥ now + Δ` — the baseline resets to the last
execution, not to a multiple of `Δ` from `created`. -/
theorem C2_recurring_baseline_last_execution (cls : CondClass) (pk now : Nat)
    (db : DBState) (a : ActionDecl) (c : Condition)
    (hc : findOpenCondition db cls.ct pk = some c)
    (ha : a ∈ get_action_methods cls ActionType.recurring)
    (hnd : (cls.declarations.map (fun d => d.name)).Nodup) :
    (a ∈ (get_triggered_recurring_actions cls pk now db).1 ↔
      (if (recordsFor db c.id ActionType.recurring a.name).isEmpty = true then c.created
        else latest_executed (recordsFor db c.id ActionType.recurring a.name)) + a.delta
        ≤ now) ∧
    (recordsFor db c.id ActionType.recurring a.name = [] →
      (a ∈ (get_triggered_recurring_actions cls pk now db).1 ↔
        c.created + a.delta ≤ now)) ∧
    (a ∈ (get_triggered_recurring_actions cls pk now db).1 →
      countRecords (execute_recurring_actions cls pk now db).1 c.id ActionType.recurring a.name
        = countRecords db c.id ActionType.recurring a.name + 1) ∧
    (a ∈ (get_triggered_recurring_actions cls pk now db).1 → ∀ now2,
      a ∈ (get_triggered_recurring_actions cls pk now2
        (execute_recurring_actions cls pk now db).1).1 → now + a.delta ≤ now2) := by
  have htrig : get_triggered_recurring_actions cls pk now db =
      ((get_action_methods cls ActionType.recurring).filter (fun b =>
        decide ((if (recordsFor db c.id ActionType.recurring b.name).isEmpty then c.created
          else latest_executed (recordsFor db c.id ActionType.recurring b.name)) + b.delta
          ≤ now)), db) := by
    unfold get_triggered_recurring_actions
    rw [get_or_create_found now hc]
  have hexec : execute_recurring_actions cls pk now db =
      ({ db with actions := db.actions ++
          ((get_action_methods cls ActionType.recurring).filter (fun b =>
            decide ((if (recordsFor db c.id ActionType.recurring b.name).isEmpty then c.created
              else latest_executed (recordsFor db c.id ActionType.recurring b.name)) + b.delta
              ≤ now))).map (rowOf c.id ActionType.recurring now) },
       pairedEvents c.id ActionType.recurring
         ((get_action_methods cls ActionType.recurring).filter (fun b =>
           decide ((if (recordsFor db c.id ActionType.recurring b.name).isEmpty then c.created
             else latest_executed (recordsFor db c.id ActionType.recurring b.name)) + b.delta
             ≤ now)))) := by
    unfold execute_recurring_actions
    rw [htrig]
    exact runActions_spec ActionType.recurring now _ hc
  have hmem_iff : a ∈ (get_triggered_recurring_actions cls pk now db).1 ↔
      (if (recordsFor db c.id ActionType.recurring a.name).isEmpty = true then c.created
        else latest_executed (recordsFor db c.id ActionType.recurring a.name)) + a.delta
        ≤ now := by
    rw [htrig]
    simp only [List.mem_filter, decide_eq_true_eq]
    constructor
    · rintro ⟨-, h⟩
      exact h
    · intro h
      exact ⟨ha, h⟩
  have hnodm := nodup_names_methods cls ActionType.recurring hnd
  have hnodtrig : (((get_action_methods cls ActionType.recurring).filter (fun b =>
      decide ((if (recordsFor db c.id ActionType.recurring b.name).isEmpty then c.created
        else latest_executed (recordsFor db c.id ActionType.recurring b.name)) + b.delta
        ≤ now))).map (fun d => d.name)).Nodup :=
    List.Nodup.sublist (List.Sublist.map _ (List.filter_sublist _)) hnodm
  have hrow : a ∈ (get_triggered_recurring_actions cls pk now db).1 →
      recordsFor (execute_recurring_actions cls pk now db).1 c.id ActionType.recurring a.name =
        recordsFor db c.id ActionType.recurring a.name ++
          [⟨c.id, ActionType.recurring, a.name, now⟩] := by
    intro hmemA
    have hmt : a ∈ (get_action_methods cls ActionType.recurring).filter (fun b =>
        decide ((if (recordsFor db c.id ActionType.recurring b.name).isEmpty then c.created
          else latest_executed (recordsFor db c.id ActionType.recurring b.name)) + b.delta
          ≤ now)) := by
      rw [htrig] at hmemA
      exact hmemA
    rw [hexec]
    unfold recordsFor
    dsimp only
    rw [List.filter_append]
    congr 1
    rw [filter_rows_by_name]
    have hlen := count_name_eq_one hnodtrig hmt
    obtain ⟨b, hb⟩ := List.length_eq_one.mp hlen
    have hb' := hb
    unfold recordsFor at hb'
    rw [hb']
    have hbn : b.name = a.name := by
      have : b ∈ ((get_action_methods cls ActionType.recurring).filter (fun b =>
          decide ((if (recordsFor db c.id ActionType.recurring b.name).isEmpty then c.created
            else latest_executed (recordsFor db c.id ActionType.recurring b.name)) + b.delta
            ≤ now))).filter (fun x => x.name == a.name) := by
        rw [hb]
        exact List.mem_singleton_self b
      have := (List.mem_filter.mp this).2
      simpa using this
    rw [List.map_singleton]
    unfold rowOf
    rw [hbn]
  refine ⟨hmem_iff, ?_, ?_, ?_⟩
  · intro hempty
    rw [hmem_iff, hempty]
    simp
  · intro hmemA
    unfold countRecords
    rw [hrow hmemA, List.length_append]
    rfl
  · intro hmemA now2 hcontra
    have hc2 : findOpenCondition (execute_recurring_actions cls pk now db).1 cls.ct pk =
        some c := by
      rw [hexec]
      exact (findOpen_eq_of_conditions rfl cls.ct pk).trans hc
    have htrig2 : get_triggered_recurring_actions cls pk now2
        (execute_recurring_actions cls pk now db).1 =
        ((get_action_methods cls ActionType.recurring).filter (fun b =>
          decide ((if (recordsFor (execute_recurring_actions cls pk now db).1 c.id
              ActionType.recurring b.name).isEmpty then c.created
            else latest_executed (recordsFor (execute_recurring_actions cls pk now db).1 c.id
              ActionType.recurring b.name)) + b.delta ≤ now2)),
         (execute_recurring_actions cls pk now db).1) := by
      unfold get_triggered_recurring_actions
      rw [get_or_create_found now2 hc2]
    rw [htrig2] at hcontra
    have hpred := (List.mem_filter.mp hcontra).2
    simp only [decide_eq_true_eq] at hpred
    rw [hrow hmemA] at hpred
    have hne : ((recordsFor db c.id ActionType.recurring a.name ++
        ([⟨c.id, ActionType.recurring, a.name, now⟩] : List ActionRec)).isEmpty) = false := by
      simp
    rw [hne] at hpred
    simp only [Bool.false_eq_true, if_false] at hpred
    rw [latest_executed_append] at hpred
    dsimp only at hpred
    have : now ≤ max (latest_executed (recordsFor db c.id ActionType.recurring a.name)) now :=
      Nat.le_max_right _ _
    omega

theorem C2_witness :
    findOpenCondition ⟨[⟨0, 7, 1, 100, none⟩], [⟨0, ActionType.recurring, "ping", 103⟩], 1⟩
      (⟨7, [⟨"ping", ActionType.recurring, 7⟩], some (fun _ => true), [1]⟩ : CondClass).ct 1 =
      some ⟨0, 7, 1, 100, none⟩ ∧
    (⟨"ping", ActionType.recurring, 7⟩ : ActionDecl) ∈ get_action_methods
      ⟨7, [⟨"ping", ActionType.recurring, 7⟩], some (fun _ => true), [1]⟩ ActionType.recurring ∧
    ((⟨7, [⟨"ping", ActionType.recurring, 7⟩], some (fun _ => true), [1]⟩ :
      CondClass).declarations.map (fun d => d.name)).Nodup ∧
    (((⟨"ping", ActionType.recurring, 7⟩ : ActionDecl) ∈ (get_triggered_recurring_actions
        ⟨7, [⟨"ping", ActionType.recurring, 7⟩], some (fun _ => true), [1]⟩ 1 110
        ⟨[⟨0, 7, 1, 100, none⟩], [⟨0, ActionType.recurring, "ping", 103⟩], 1⟩).1 ↔
      (if (recordsFor ⟨[⟨0, 7, 1, 100, none⟩], [⟨0, ActionType.recurring, "ping", 103⟩], 1⟩
            0 ActionType.recurring "ping").isEmpty = true then 100
        else latest_executed (recordsFor
          ⟨[⟨0, 7, 1, 100, none⟩], [⟨0, ActionType.recurring, "ping", 103⟩], 1⟩
          0 ActionType.recurring "ping")) + 7 ≤ 110) ∧
    (recordsFor ⟨[⟨0, 7, 1, 100, none⟩], [⟨0, ActionType.recurring, "ping", 103⟩], 1⟩
        0 ActionType.recurring "ping" = [] →
      ((⟨"ping", ActionType.recurring, 7⟩ : ActionDecl) ∈ (get_triggered_recurring_actions
        ⟨7, [⟨"ping", ActionType.recurring, 7⟩], some (fun _ => true), [1]⟩ 1 110
        ⟨[⟨0, 7, 1, 100, none⟩], [⟨0, ActionType.recurring, "ping", 103⟩], 1⟩).1 ↔
        100 + 7 ≤ 110)) ∧
    ((⟨"ping", ActionType.recurring, 7⟩ : ActionDecl) ∈ (get_triggered_recurring_actions
        ⟨7, [⟨"ping", ActionType.recurring, 7⟩], some (fun _ => true), [1]⟩ 1 110
        ⟨[⟨0, 7, 1, 100, none⟩], [⟨0, ActionType.recurring, "ping", 103⟩], 1⟩).1 →
      countRecords (execute_recurring_actions
          ⟨7, [⟨"ping", ActionType.recurring, 7⟩], some (fun _ => true), [1]⟩ 1 110
          ⟨[⟨0, 7, 1, 100, none⟩], [⟨0, ActionType.recurring, "ping", 103⟩], 1⟩).1
          0 ActionType.recurring "ping" =
        countRecords ⟨[⟨0, 7, 1, 100, none⟩], [⟨0, ActionType.recurring, "ping", 103⟩], 1⟩
          0 ActionType.recurring "ping" + 1) ∧
    ((⟨"ping", ActionType.recurring, 7⟩ : ActionDecl) ∈ (get_triggered_recurring_actions
        ⟨7, [⟨"ping", ActionType.recurring, 7⟩], some (fun _ => true), [1]⟩ 1 110
        ⟨[⟨0, 7, 1, 100, none⟩], [⟨0, ActionType.recurring, "ping", 103⟩], 1⟩).1 → ∀ now2,
      (⟨"ping", ActionType.recurring, 7⟩ : ActionDecl) ∈ (get_triggered_recurring_actions
        ⟨7, [⟨"ping", ActionType.recurring, 7⟩], some (fun _ => true), [1]⟩ 1 now2
        (execute_recurring_actions
          ⟨7, [⟨"ping", ActionType.recurring, 7⟩], some (fun _ => true), [1]⟩ 1 110
          ⟨[⟨0, 7, 1, 100, none⟩], [⟨0, ActionType.recurring, "ping", 103⟩], 1⟩).1).1 →
        110 + 7 ≤ now2)) :=
  ⟨by decide, by decide, by decide,
   C2_recurring_baseline_last_execution
     ⟨7, [⟨"ping", ActionType.recurring, 7⟩], some (fun _ => true), [1]⟩ 1 110
     ⟨[⟨0, 7, 1, 100, none⟩], [⟨0, ActionType.recurring, "ping", 103⟩], 1⟩
     ⟨"ping", ActionType.recurring, 7⟩ ⟨0, 7, 1, 100, none⟩
     (by decide) (by decide) (by decide)⟩

/-- Running `create_condition` over a list of subjects: well-formedness is kept,
every processed subject ends with an open condition, already-open rows of any pair
survive unchanged, and pairs outside the processed set are untouched. -/
theorem create_fold_spec (cls : CondClass) (ex : Bool) (now : Nat) :
    ∀ (L : List Nat) (db : DBState), wellFormed db →
      wellFormed (foldRun (fun pk => create_condition cls pk ex now) L db).1 ∧
      (∀ pk ∈ L, (findOpenCondition
        (foldRun (fun pk => create_condition cls pk ex now) L db).1 cls.ct pk).isSome
        = true) ∧
      (∀ ct' pk' c, findOpenCondition db ct' pk' = some c →
        findOpenCondition (foldRun (fun pk => create_condition cls pk ex now) L db).1 ct' pk'
          = some c) ∧
      (∀ ct' pk', ¬(ct' = cls.ct ∧ pk' ∈ L) →
        findOpenCondition (foldRun (fun pk => create_condition cls pk ex now) L db).1 ct' pk'
          = findOpenCondition db ct' pk') := by
  intro L
  induction L with
  | nil =>
      intro db h
      exact ⟨h, by simp, fun ct' pk' c hc => hc, fun ct' pk' _ => rfl⟩
  | cons pk rest ih =>
      intro db h
      have hwf1 : wellFormed (create_condition cls pk ex now db).1 :=
        create_condition_wf cls pk ex now h
      obtain ⟨ihwf, ihsome, ihmono, ihframe⟩ := ih (create_condition cls pk ex now db).1 hwf1
      simp only [foldRun]
      refine ⟨ihwf, ?_, ?_, ?_⟩
      · intro pk' hpk'
        rcases List.mem_cons.mp hpk' with he | hr
        · subst he
          have h1 := create_condition_isSome cls pk' ex now db
          obtain ⟨c, hc⟩ := Option.isSome_iff_exists.mp h1
          rw [ihmono cls.ct pk' c hc]
          rfl
        · exact ihsome pk' hr
      · intro ct' pk' c hc
        exact ihmono ct' pk' c (create_condition_mono cls pk ex now db hc)
      · intro ct' pk' hne
        have hnotin : ¬(ct' = cls.ct ∧ pk' ∈ rest) := by
          rintro ⟨h1, h2⟩
          exact hne ⟨h1, List.mem_cons_of_mem pk h2⟩
        have hnepk : ¬(ct' = cls.ct ∧ pk' = pk) := by
          rintro ⟨h1, h2⟩
          exact hne ⟨h1, h2 ▸ List.mem_cons_self pk rest⟩
        rw [ihframe ct' pk' hnotin, create_condition_frame cls pk ex now db hnepk]

/-- Running `end_condition` over a duplicate-free list of subjects that all have an
open condition: well-formedness is kept, every processed subject ends with no open
condition, and pairs outside the processed set are untouched. -/
theorem end_fold_spec (cls : CondClass) (ex : Bool) (now : Nat) :
    ∀ (E : List Nat) (db : DBState), wellFormed db → E.Nodup →
      (∀ pk ∈ E, (findOpenCondition db cls.ct pk).isSome = true) →
      wellFormed (foldRun (fun pk => end_condition cls pk ex none now) E db).1 ∧
      (∀ pk ∈ E, findOpenCondition
        (foldRun (fun pk => end_condition cls pk ex none now) E db).1 cls.ct pk = none) ∧
      (∀ ct' pk', ¬(ct' = cls.ct ∧ pk' ∈ E) →
        findOpenCondition (foldRun (fun pk => end_condition cls pk ex none now) E db).1 ct' pk'
          = findOpenCondition db ct' pk') := by
  intro E
  induction E with
  | nil =>
      intro db h _ _
      exact ⟨h, by simp, fun ct' pk' _ => rfl⟩
  | cons pk rest ih =>
      intro db h hnd hsome
      obtain ⟨c, hc⟩ := Option.isSome_iff_exists.mp (hsome pk (List.mem_cons_self pk rest))
      obtain ⟨-, hwf1, hnone1, hframe1⟩ := end_condition_spec cls pk ex none now h hc
      rw [List.nodup_cons] at hnd
      have hsome1 : ∀ pk' ∈ rest, (findOpenCondition
          (end_condition cls pk ex none now db).1 cls.ct pk').isSome = true := by
        intro pk' hpk'
        have hne : ¬(cls.ct = cls.ct ∧ pk' = pk) := by
          rintro ⟨-, h2⟩
          exact hnd.1 (h2 ▸ hpk')
        rw [hframe1 cls.ct pk' hne]
        exact hsome pk' (List.mem_cons_of_mem pk hpk')
      obtain ⟨ihwf, ihnone, ihframe⟩ :=
        ih (end_condition cls pk ex none now db).1 hwf1 hnd.2 hsome1
      simp only [foldRun]
      refine ⟨ihwf, ?_, ?_⟩
      · intro pk' hpk'
        rcases List.mem_cons.mp hpk' with he | hr
        · subst he
          have hne : ¬(cls.ct = cls.ct ∧ pk' ∈ rest) := by
            rintro ⟨-, h2⟩
            exact hnd.1 h2
          rw [ihframe cls.ct pk' hne]
          exact hnone1
        · exact ihnone pk' hr
      · intro ct' pk' hne
        have hnotin : ¬(ct' = cls.ct ∧ pk' ∈ rest) := by
          rintro ⟨h1, h2⟩
          exact hne ⟨h1, List.mem_cons_of_mem pk h2⟩
        have hnepk : ¬(ct' = cls.ct ∧ pk' = pk) := by
          rintro ⟨h1, h2⟩
          exact hne ⟨h1, h2 ▸ List.mem_cons_self pk rest⟩
        rw [ihframe ct' pk' hnotin, hframe1 ct' pk' hnepk]

/-- C4: reconciliation (`create_all_conditions` then `end_all_conditions`) is
idempotent — with the predicate unchanged, a second run starting from the state the
first run produced changes nothing and emits no event: no new condition row, no new
action record, no action invocation; in particular repeating reconciliation any
number of times executes each initial action exactly once per created condition. -/
theorem C4_reconcile_idempotent (cls : CondClass) (p : Nat → Bool) (execute : Bool)
    (now1 now2 : Nat) (db db1 : DBState) (tr1 : List Event)
    (hwf : wellFormed db) (hp : cls.existsWhen = some p) (hnd : cls.population.Nodup)
    (h1 : reconcile cls execute now1 db = Except.ok (db1, tr1)) :
    reconcile cls execute now2 db1 = Except.ok (db1, []) := by
  simp only [reconcile, create_all_conditions, end_all_conditions, to_be_created,
    to_be_ended, get_query_set, hp, Except.ok.injEq, Prod.mk.injEq] at h1
  obtain ⟨hdb1, -⟩ := h1
  set L := (cls.population.filter p).filter
    (fun pk => !(get_ids_with_conditions cls db).contains pk) with hLdef
  set mid := (foldRun (fun pk => create_condition cls pk execute now1) L db).1 with hmiddef
  set E := (cls.population.filter (fun pk => !p pk)).filter
    (fun pk => (get_ids_with_conditions cls mid).contains pk) with hEdef
  set fin := (foldRun (fun pk => end_condition cls pk execute none now1) E mid).1 with hfindef
  obtain ⟨hwfmid, hsomemid, hmono, hframeC⟩ := create_fold_spec cls execute now1 L db hwf
  have hEnodup : E.Nodup := List.Nodup.filter _ (List.Nodup.filter _ hnd)
  have hEsome : ∀ pk ∈ E, (findOpenCondition mid cls.ct pk).isSome = true := by
    intro pk hpk
    have hcont := (List.mem_filter.mp hpk).2
    exact (mem_ids_iff cls mid pk).mp (by simpa using hcont)
  obtain ⟨hwffin, hnonefin, hframeE⟩ :=
    end_fold_spec cls execute now1 E mid hwfmid hEnodup hEsome
  have hP : ∀ pk ∈ cls.population, p pk = true →
      (findOpenCondition fin cls.ct pk).isSome = true := by
    intro pk hpk hppk
    have hnotE : pk ∉ E := by
      intro hmem
      have h2 := (List.mem_filter.mp (List.mem_filter.mp hmem).1).2
      simp [hppk] at h2
    rw [hframeE cls.ct pk (by rintro ⟨-, h2⟩; exact hnotE h2)]
    by_cases hL : pk ∈ L
    · exact hsomemid pk hL
    · have hmemf : pk ∈ cls.population.filter p := List.mem_filter.mpr ⟨hpk, hppk⟩
      have hcont : pk ∈ get_ids_with_conditions cls db := by
        by_contra hnc
        apply hL
        rw [hLdef]
        refine List.mem_filter.mpr ⟨hmemf, ?_⟩
        simp [hnc]
      obtain ⟨c, hc⟩ := Option.isSome_iff_exists.mp ((mem_ids_iff cls db pk).mp hcont)
      rw [hmono cls.ct pk c hc]
      rfl
  have hQ : ∀ pk ∈ cls.population, p pk = false →
      findOpenCondition fin cls.ct pk = none := by
    intro pk hpk hppk
    by_cases hmemE : pk ∈ E
    · exact hnonefin pk hmemE
    · rw [hframeE cls.ct pk (by rintro ⟨-, h2⟩; exact hmemE h2)]
      have hm : pk ∉ get_ids_with_conditions cls mid := by
        intro hc
        apply hmemE
        rw [hEdef]
        exact List.mem_filter.mpr
          ⟨List.mem_filter.mpr ⟨hpk, by simp [hppk]⟩, by simpa using hc⟩
      have h2 : ¬((findOpenCondition mid cls.ct pk).isSome = true) :=
        fun hs => hm ((mem_ids_iff cls mid pk).mpr hs)
      rw [← Option.not_isSome_iff_eq_none]
      simpa using h2
  have hTBC : to_be_created cls db1 = Except.ok [] := by
    simp only [to_be_created, get_query_set, hp, Except.ok.injEq]
    rw [List.filter_eq_nil_iff]
    intro pk hpk
    have hmemf := List.mem_filter.mp hpk
    have hs := hP pk hmemf.1 hmemf.2
    have hin : pk ∈ get_ids_with_conditions cls db1 := by
      rw [← hdb1]
      exact (mem_ids_iff cls fin pk).mpr hs
    simp [hin]
  have hTBE : to_be_ended cls db1 = Except.ok [] := by
    simp only [to_be_ended, hp, Except.ok.injEq]
    rw [List.filter_eq_nil_iff]
    intro pk hpk
    have hmemf := List.mem_filter.mp hpk
    have hpf : p pk = false := by
      have := hmemf.2
      simpa using this
    have hnone := hQ pk hmemf.1 hpf
    have hnotin : pk ∉ get_ids_with_conditions cls db1 := by
      rw [← hdb1]
      intro hc
      have hs := (mem_ids_iff cls fin pk).mp hc
      rw [hnone] at hs
      simp at hs
    simp [hnotin]
  simp only [reconcile, create_all_conditions, end_all_conditions, hTBC, hTBE, foldRun]
  rfl

theorem C4_witness :
    wellFormed ⟨[], [], 0⟩ ∧
    (⟨7, [⟨"hello", ActionType.initial, 0⟩], some (fun pk => pk == 1), [1, 2]⟩ :
      CondClass).existsWhen = some (fun pk => pk == 1) ∧
    (⟨7, [⟨"hello", ActionType.initial, 0⟩], some (fun pk => pk == 1), [1, 2]⟩ :
      CondClass).population.Nodup ∧
    reconcile ⟨7, [⟨"hello", ActionType.initial, 0⟩], some (fun pk => pk == 1), [1, 2]⟩
        true 100 ⟨[], [], 0⟩ =
      Except.ok (⟨[⟨0, 7, 1, 100, none⟩], [⟨0, ActionType.initial, "hello", 100⟩], 1⟩,
        [Event.record 0 ActionType.initial "hello", Event.invoke 0 ActionType.initial "hello"]) ∧
    reconcile ⟨7, [⟨"hello", ActionType.initial, 0⟩], some (fun pk => pk == 1), [1, 2]⟩
        true 200 ⟨[⟨0, 7, 1, 100, none⟩], [⟨0, ActionType.initial, "hello", 100⟩], 1⟩ =
      Except.ok (⟨[⟨0, 7, 1, 100, none⟩], [⟨0, ActionType.initial, "hello", 100⟩], 1⟩, []) :=
  have hwf0 : wellFormed ⟨[], [], 0⟩ := ⟨List.Pairwise.nil, List.nodup_nil, by simp⟩
  ⟨hwf0, rfl, by decide, rfl,
   C4_reconcile_idempotent
     ⟨7, [⟨"hello", ActionType.initial, 0⟩], some (fun pk => pk == 1), [1, 2]⟩
     (fun pk => pk == 1) true 100 200 ⟨[], [], 0⟩
     ⟨[⟨0, 7, 1, 100, none⟩], [⟨0, ActionType.initial, "hello", 100⟩], 1⟩
     [Event.record 0 ActionType.initial "hello", Event.invoke 0 ActionType.initial "hello"]
     hwf0 rfl (by decide) rfl⟩
